import Mathlib

/-!
Verification development for the company-name matching pipeline
(packages `cm` and `bizmatch`): normalization, blocking index,
scoring and decisioning.

The Python sources are shallowly embedded:

* strings are `List Char`; the Unicode NFKC + casefold step is modelled
  on the ASCII fragment (where NFKC is the identity and casefold is
  ASCII lowercasing), which covers every concrete input used below;
* Python floats are modelled as rationals (`ℚ`);
* Python dicts are association lists in insertion order;
* fallible code (`KeyError`, `IndexError`, `TypeError`,
  `ZeroDivisionError`) returns `Except PyErr`;
* the external collaborators (the rapidfuzz `WRatio` similarity, the
  embedding index, the LLM provider and the JSON parser) are oracle
  parameters, mirroring the provider interfaces of the design;
* the static word-list files (`designators_global.txt`,
  `designator_aliases.json`, `replacements.json`,
  `acronym_collision.txt`, `<category>.txt`) are not part of the source
  tree; their contents are a `StaticData` parameter, so every theorem
  quantifies over the data the files could hold.
-/

namespace BizMatch

/-- Strings of the embedded programs: lists of characters. -/
abbrev Str := List Char

/-- Model of Python `str.casefold` composed with NFKC, restricted to the
ASCII fragment: uppercase ASCII letters are lowercased, everything else
is unchanged. -/
def foldChar (c : Char) : Char :=
  if 'A' ≤ c ∧ c ≤ 'Z' then Char.ofNat (c.toNat + 32) else c

/-- Model of the regex class `\w` (ASCII fragment): letters, digits and
underscore. -/
def isWordChar (c : Char) : Bool :=
  (('a' ≤ c ∧ c ≤ 'z') ∨ ('A' ≤ c ∧ c ≤ 'Z') ∨ ('0' ≤ c ∧ c ≤ '9') ∨ c = '_')

/-- Model of Python whitespace (`str.split`, regex `\s`). -/
def isSpaceChar (c : Char) : Bool :=
  (c = ' ' ∨ c = '\t' ∨ c = '\n' ∨ c = '\r')

/-- ASCII letter test (model of `str.isalpha` per character). -/
def isAlphaChar (c : Char) : Bool :=
  (('a' ≤ c ∧ c ≤ 'z') ∨ ('A' ≤ c ∧ c ≤ 'Z'))

/-- ASCII digit test (model of `str.isdigit` per character). -/
def isDigitChar (c : Char) : Bool :=
  ('0' ≤ c ∧ c ≤ '9')

/-- ASCII uppercase-letter test. -/
def isUpperChar (c : Char) : Bool :=
  ('A' ≤ c ∧ c ≤ 'Z')

/-- Python `s.isupper()`: at least one cased character, and no cased
character is lowercase (digits and punctuation are uncased). -/
def isUpperStr (s : Str) : Bool :=
  s.any isAlphaChar && s.all (fun c => !isAlphaChar c || isUpperChar c)

/-- Python `s.isalpha()`: nonempty and all characters alphabetic. -/
def isAlphaStr (s : Str) : Bool :=
  !s.isEmpty && s.all isAlphaChar

/-- Python `s.isdigit()`: nonempty and all characters digits. -/
def isDigitStr (s : Str) : Bool :=
  !s.isEmpty && s.all isDigitChar

/-- Accumulator worker for `splitBy`.  Characters satisfying `p` are
separators; separator runs are collapsed and empty pieces dropped,
matching Python `str.split()` / `re.split` followed by dropping empty
parts. -/
def splitByGo (p : Char → Bool) : List Char → List Char → List (List Char)
  | [], acc => if acc = [] then [] else [acc.reverse]
  | c :: rest, acc =>
    if p c then
      if acc = [] then splitByGo p rest []
      else acc.reverse :: splitByGo p rest []
    else splitByGo p rest (c :: acc)

/-- Split a string on the characters satisfying `p`, dropping empty
pieces. -/
def splitBy (p : Char → Bool) (s : Str) : List Str :=
  splitByGo p s []

/-- Python `" ".join(tokens)`. -/
def joinSpace : List Str → Str
  | [] => []
  | [t] => t
  | t :: ts => t ++ ' ' :: joinSpace ts

/-- Fuelled worker for `pyReplace`; the fuel is an upper bound on the
number of characters still to scan, so that the definition is
structurally recursive and kernel-reducible. -/
def pyReplaceAux (old new : Str) : Nat → Str → Str
  | 0, s => s
  | _ + 1, [] => []
  | fuel + 1, c :: rest =>
    if old.isPrefixOf (c :: rest) then
      new ++ pyReplaceAux old new fuel ((c :: rest).drop old.length)
    else
      c :: pyReplaceAux old new fuel rest

/-- Model of Python `s.replace(old, new)` for a nonempty `old`:
replace non-overlapping occurrences left to right.  (Python's behaviour
for an empty `old` — interleaving `new` everywhere — is modelled by the
dedicated first branch.) -/
def pyReplace (s old new : Str) : Str :=
  if old = [] then new ++ s.flatMap (fun c => c :: new)
  else pyReplaceAux old new s.length s

/-- Apply an ordered replacement map (model of the loop over
`REPLACEMENTS.items()` in `cm/normalize.py`). -/
def applyReplacements (reps : List (Str × Str)) (s : Str) : Str :=
  reps.foldl (fun acc kv => pyReplace acc kv.1 kv.2) s

/-- Python `s.strip()`: drop whitespace from both ends. -/
def pyStrip (s : Str) : Str :=
  ((s.dropWhile isSpaceChar).reverse.dropWhile isSpaceChar).reverse

/-- First-match lookup in an association list (Python dict `.get`). -/
def lookupAssoc {α β : Type} [DecidableEq α] : List (α × β) → α → Option β
  | [], _ => none
  | (k, v) :: rest, key => if k = key then some v else lookupAssoc rest key

/-- Python truthiness of an optional string: present and nonempty. -/
def optTruthy : Option Str → Bool
  | none => false
  | some s => !s.isEmpty

/-- Python `a or b` on optional strings, with `None` and `""` falsy. -/
def pyOrOptStr (a b : Option Str) : Option Str :=
  match a with
  | none => b
  | some s => if s = [] then b else some s

/-- Python exceptions surfaced by the embedded code. -/
inductive PyErr
  | typeError
  | keyError
  | indexError
  | zeroDivisionError
  deriving DecidableEq, Repr

/-- Python list indexing `l[i]` (raises `IndexError` out of range). -/
def listGet {α : Type} (l : List α) (i : Nat) : Except PyErr α :=
  match l.get? i with
  | some x => Except.ok x
  | none => Except.error PyErr.indexError

instance {ε α : Type} [DecidableEq ε] [DecidableEq α] :
    DecidableEq (Except ε α) := fun x y =>
  match x, y with
  | Except.error e, Except.error f => decidable_of_iff (e = f) (by simp)
  | Except.ok a, Except.ok b => decidable_of_iff (a = b) (by simp)
  | Except.error _, Except.ok _ => isFalse (by simp)
  | Except.ok _, Except.error _ => isFalse (by simp)

/-! ### Static data (the external word-list files) -/

/-- Contents of the static configuration files, loaded once at startup.
`categories` maps a category name to the word list of
`<category>.txt`; a missing file is an empty list, the behaviour of
`_load_word_list` in `cm/designators.py`. -/
structure StaticData where
  replacements : List (Str × Str)
  aliases : List (Str × Str)
  designators : List Str
  collision_list : List Str
  categories : List (String × List Str)
  deriving DecidableEq, Repr

/-! ### Configuration (`cm/config.py`) -/

structure ScoringWeights where
  token_overlap : ℚ := 0.35
  fuzzy_similarity : ℚ := 0.30
  acronym_signal : ℚ := 0.20
  semantic_similarity : ℚ := 0.15
  deriving DecidableEq, Repr

structure Penalties where
  numeric_mismatch : ℚ := 0.30
  numeric_one_side_only : ℚ := 0.10
  short_name_guardrail : ℚ := 0.25
  deriving DecidableEq, Repr

structure Thresholds where
  t_high : ℚ := 0.92
  t_low : ℚ := 0.75
  margin : ℚ := 0.06
  deriving DecidableEq, Repr

structure CandidateConfig where
  max_candidates_total : Nat := 500
  max_candidates_lexical : Nat := 300
  max_candidates_embedding : Nat := 200
  use_k_first : Bool := true
  deriving DecidableEq, Repr

structure LLMConfig where
  enabled : Bool := false
  top_k : Nat := 3
  global_call_cap : Nat := 50
  per_item_call_cap : Nat := 2
  min_confidence : ℚ := 0.75
  forbid_both_single_token : Bool := true
  deriving DecidableEq, Repr

structure EmbeddingConfig where
  enabled : Bool := false
  ann_neighbors : Nat := 100
  batch_size : Nat := 250
  deriving DecidableEq, Repr

structure AcronymConfig where
  min_length : Nat := 3
  deriving DecidableEq, Repr

structure NormalizationConfig where
  strip_prefix_designators : Bool := false
  strip_categories : List String := []
  deriving DecidableEq, Repr

structure MatchConfig where
  scoring : ScoringWeights := {}
  penalties : Penalties := {}
  thresholds : Thresholds := {}
  candidates : CandidateConfig := {}
  llm : LLMConfig := {}
  embedding : EmbeddingConfig := {}
  acronym : AcronymConfig := {}
  normalization : NormalizationConfig := {}
  deriving DecidableEq, Repr

/-! ### Core types (`bizmatch/types.py`) -/

/-- The `meta` dictionary attached to a `NormalizedName`. -/
structure NameMeta where
  removed_designators : List Str := []
  removed_institution_location : List Str := []
  warnings : List String := []
  deriving DecidableEq, Repr

structure NormalizedName where
  original : Str
  normalized_text : Str
  raw_tokens : List Str
  core_tokens : List Str
  core_string : Str
  acronym : Option Str
  numeric_tokens : List Str
  keys : List (String × Str)
  meta : NameMeta := {}
  deriving DecidableEq, Repr

structure Candidate where
  b_id : Nat
  sources : List String := []
  deriving DecidableEq, Repr

/-- A value stored in the `features` dict of a `ScoredCandidate`. -/
inductive FeatureValue
  | num (q : ℚ)
  | tag (s : String)
  deriving DecidableEq, Repr

structure ScoredCandidate where
  b_id : Nat
  score : ℚ
  features : List (String × FeatureValue) := []
  reasons : List String := []
  deriving DecidableEq, Repr

/-- Debug payload of a `MatchResult` (the `debug` dict built in
`Matcher.match_one`). -/
structure DebugInfo where
  top_candidates : List (Nat × ℚ × List String) := []
  warnings : List String := []
  candidate_count : Nat := 0
  deriving DecidableEq, Repr

structure MatchResult where
  a_id : Nat
  a_name : Str
  b_id : Option Nat
  b_name : Option Str
  decision : String
  score : ℚ
  runner_up_score : Option ℚ := none
  margin : Option ℚ := none
  used_llm : Bool := false
  reasons : List String := []
  debug : DebugInfo := {}
  deriving DecidableEq, Repr

structure LLMResponse where
  decision : String
  confidence : ℚ
  reason : String
  deriving DecidableEq, Repr

/-! ### Designator handling (`cm/designators.py`) -/

/-- `canonicalize_token`: apply the alias map to a token. -/
def canonicalize_token (data : StaticData) (t : Str) : Str :=
  (lookupAssoc data.aliases t).getD t

/-- `is_designator`: membership in the global designator set. -/
def is_designator (data : StaticData) (t : Str) : Bool :=
  data.designators.contains t

/-- `load_category_words`: word list of `<category>.txt`; a missing
file yields the empty set. -/
def load_category_words (data : StaticData) (category : String) : List Str :=
  (lookupAssoc data.categories category).getD []

/-- `strip_word_categories`: remove every token whose lowercase form is
in one of the configured categories; revert if nothing would remain. -/
def strip_word_categories (data : StaticData) (tokens : List Str)
    (categories : List String) : List Str × List Str :=
  if categories = [] then (tokens, [])
  else
    let category_words := (categories.map (load_category_words data)).flatten
    let removed := tokens.filter (fun t => category_words.contains (t.map foldChar))
    let filtered := tokens.filter (fun t => !category_words.contains (t.map foldChar))
    if filtered.length < 1 then (tokens, []) else (filtered, removed)

/-- Suffix-scan of `strip_designators`: `suffix_start` is the length of
the list minus the length of the maximal trailing designator run, and
`prefix_end` (when prefix stripping is on) is the length of the maximal
leading run.  This matches the two index loops of the source. -/
def strippedBounds (data : StaticData) (stripPre : Bool) (tokens : List Str) :
    Nat × Nat :=
  let suffix_start :=
    tokens.length - (tokens.reverse.takeWhile (is_designator data)).length
  let prefix_end :=
    if stripPre then (tokens.takeWhile (is_designator data)).length else 0
  (prefix_end, suffix_start)

/-- The core slice `tokens[prefix_end : suffix_start]` that
`strip_designators` would keep before its safety check. -/
def strippedCore (data : StaticData) (stripPre : Bool) (tokens : List Str) :
    List Str :=
  let (prefix_end, suffix_start) := strippedBounds data stripPre tokens
  (tokens.drop prefix_end).take (suffix_start - prefix_end)

/-- The removed tokens, in index order (prefix run then suffix run;
when the two runs overlap every token is removed exactly once). -/
def strippedRemoved (data : StaticData) (stripPre : Bool) (tokens : List Str) :
    List Str :=
  let (prefix_end, suffix_start) := strippedBounds data stripPre tokens
  tokens.take prefix_end ++ tokens.drop (max prefix_end suffix_start)

/-- `strip_designators`: strip the maximal designator runs at the
suffix (and optionally the prefix), reverting when fewer than
`min_tokens` tokens would remain. -/
def strip_designators (data : StaticData) (stripPre : Bool) (min_tokens : Nat)
    (tokens : List Str) : List Str × List Str :=
  let core := strippedCore data stripPre tokens
  if core.length < min_tokens then (tokens, [])
  else (core, strippedRemoved data stripPre tokens)

/-! ### Acronyms (`bizmatch/acronyms.py`, the twin of the absent
`cm/acronyms.py`) -/

/-- `generate_acronym`: first letter of each nonempty core token;
`None` when too few tokens or too short a result. -/
def generate_acronym (acfg : AcronymConfig) (core_tokens : List Str) :
    Option Str :=
  if core_tokens.length < acfg.min_length then none
  else
    let acronym := core_tokens.filterMap (fun t => t.head?)
    if acronym.length < acfg.min_length then none else some acronym

/-- `normalize_acronym_input`: detect inputs such as `I.B.M.` that are
single letters separated by dots or whitespace, returning the lowered
letters. -/
def normalize_acronym_input (text : Str) : Option Str :=
  let sep := fun c => (c = '.' : Bool) || isSpaceChar c
  let cleaned := text.filter (fun c => !sep c)
  if 3 ≤ cleaned.length ∧ isAlphaStr cleaned
      ∧ (splitBy sep text).all (fun part => part.length = 1) then
    some (cleaned.map foldChar)
  else none

/-- `is_collision`: lowercased membership in the collision list. -/
def is_collision (data : StaticData) (acronym : Str) : Bool :=
  data.collision_list.contains (acronym.map foldChar)

/-- The second initialism check of `acronym_relation` (`b_acronym`
against `a`'s token initials) and the fall-through `none` branch. -/
def acronymRelationBSide (data : StaticData) (a_core_tokens : List Str)
    (b_acronym : Option Str) : Except PyErr String :=
  if optTruthy b_acronym ∧ 3 ≤ a_core_tokens.length then
    match a_core_tokens.mapM (fun t => t.head?) with
    | none => Except.error PyErr.indexError
    | some a_initialism =>
      if b_acronym.getD [] = a_initialism then
        if is_collision data (b_acronym.getD []) then Except.ok ("collision")
        else Except.ok ("initialism")
      else Except.ok ("none")
  else Except.ok ("none")

/-- `acronym_relation`: `exact` / `initialism` / `collision` / `none`.
Computing an initialism indexes `t[0]` of every core token, so an empty
token raises `IndexError`, which the embedding surfaces as `Except`. -/
def acronym_relation (data : StaticData) (a_acronym : Option Str)
    (a_core_tokens : List Str) (b_acronym : Option Str)
    (b_core_tokens : List Str) : Except PyErr String :=
  if optTruthy a_acronym ∧ optTruthy b_acronym ∧ a_acronym = b_acronym then
    if is_collision data (a_acronym.getD []) then Except.ok ("collision")
    else Except.ok ("exact")
  else if optTruthy a_acronym ∧ 3 ≤ b_core_tokens.length then
    match b_core_tokens.mapM (fun t => t.head?) with
    | none => Except.error PyErr.indexError
    | some b_initialism =>
      if a_acronym.getD [] = b_initialism then
        if is_collision data (a_acronym.getD []) then Except.ok ("collision")
        else Except.ok ("initialism")
      else acronymRelationBSide data a_core_tokens b_acronym
  else acronymRelationBSide data a_core_tokens b_acronym

/-! ### Normalization (`cm/normalize.py`) -/

/-- Step 5 of `normalize`: per-token alias canonicalization, else
punctuation strip; tokens that become empty are dropped. -/
def cleanupTokens (data : StaticData) (raw_split : List Str) : List Str :=
  raw_split.flatMap (fun t =>
    let canonical := canonicalize_token data t
    if canonical ≠ t then [canonical]
    else
      let cleaned := t.filter isWordChar
      if cleaned ≠ [] then [cleaned] else [])

/-- One iteration of the category-stripping loop (step 9b): strip the
configured category words, then re-strip designators aggressively
(`min_tokens = 1`).  Returns the new core and the two removed lists. -/
def categoryPass (data : StaticData) (ncfg : NormalizationConfig)
    (core : List Str) : List Str × List Str × List Str :=
  let stripped_cats := strip_word_categories data core ncfg.strip_categories
  let stripped_desig :=
    strip_designators data ncfg.strip_prefix_designators 1 stripped_cats.1
  (stripped_desig.1, stripped_cats.2, stripped_desig.2)

/-- The bounded fixed-point loop of step 9b (`for _ in range(10)`),
accumulating removed category words and designators. -/
def categoryLoop (data : StaticData) (ncfg : NormalizationConfig) :
    Nat → List Str → List Str × List Str × List Str
  | 0, core => (core, [], [])
  | fuel + 1, core =>
    let prev := core
    let pass := categoryPass data ncfg core
    if pass.1 = prev then pass
    else
      let next := categoryLoop data ncfg fuel pass.1
      (next.1, pass.2.1 ++ next.2.1, pass.2.2 ++ next.2.2)

/-- `_extract_numeric_tokens`: whole-token digits, else every maximal
digit run (regex `\d+`), order preserved. -/
def extractNumericTokens (tokens : List Str) : List Str :=
  tokens.flatMap (fun token =>
    if isDigitStr token then [token]
    else splitBy (fun c => !isDigitChar c) token)

/-- `_generate_blocking_keys`: the key mapping in insertion order.
`k_core` is always present; the others are conditional. -/
def generateBlockingKeys (core_tokens : List Str) (core_string : Str)
    (acronym : Option Str) : List (String × Str) :=
  [("k_core", core_string)]
  ++ (if 2 ≤ core_tokens.length then
        [("k_prefix2", joinSpace (core_tokens.take 2))] else [])
  ++ (if 3 ≤ core_tokens.length then
        [("k_prefix3", joinSpace (core_tokens.take 3))] else [])
  ++ (if optTruthy acronym then [("k_acronym", acronym.getD [])] else [])
  ++ (if core_tokens ≠ [] then [("k_first", core_tokens.headD [])] else [])

/-- Step 11 of `normalize`: acronym resolution.  The whole-input
acronym or the generated one (`or` with Python falsiness of `""`),
else the single-token uppercase rule. -/
def resolveAcronym (acfg : AcronymConfig) (original : Str)
    (core_tokens : List Str) : Option Str :=
  let acronym_from_input := normalize_acronym_input original
  match pyOrOptStr acronym_from_input (generate_acronym acfg core_tokens) with
  | some a => some a
  | none =>
    if core_tokens.length = 1 then
      let token := core_tokens.headD []
      if isAlphaStr token ∧ acfg.min_length ≤ token.length
          ∧ isUpperStr ((pyStrip original).filter (fun c => c ≠ '.')) then
        some token
      else none
    else none

/-- `normalize` (`cm/normalize.py`): the full pipeline.  The numbered
comments follow the steps of the source. -/
def normalize (data : StaticData) (cfg : MatchConfig) (name : Str) :
    NormalizedName :=
  let original := name
  -- 1-2. NFKC + casefold (ASCII model)
  let s0 := name.map foldChar
  let normalized_text := s0
  -- 3. ordered symbol/string replacements from replacements.json
  let s1 := applyReplacements data.replacements s0
  -- 4. whitespace tokenization
  let raw_split := splitBy isSpaceChar s1
  -- 5. alias canonicalization / punctuation strip
  let tokens := cleanupTokens data raw_split
  -- 7. raw_tokens
  let raw_tokens := tokens
  -- 8. designator stripping (safety revert inside strip_designators)
  let stripped := strip_designators data cfg.normalization.strip_prefix_designators 2 tokens
  -- 9. the source's defensive re-check (unreachable when the revert
  -- already happened inside strip_designators, which returns an empty
  -- removed list in that case)
  let step9 :=
    if stripped.1.length < 2 ∧ stripped.2 ≠ [] then
      (tokens, ([] : List Str), ["designator_strip_reverted_short_core"])
    else (stripped.1, stripped.2, ([] : List String))
  -- 9b. optional category stripping, iterated to a fixed point
  let looped :=
    if cfg.normalization.strip_categories ≠ [] then
      categoryLoop data cfg.normalization 10 step9.1
    else (step9.1, [], [])
  let core_tokens := looped.1
  let removed_designators := step9.2.1 ++ looped.2.2
  let removed_categories := looped.2.1
  let warnings1 := step9.2.2
    ++ (if core_tokens.length = 1 then ["single_token_core"] else [])
  -- 10. numeric tokens
  let numeric_tokens := extractNumericTokens core_tokens
  -- 11. acronym resolution (whole-input detection happens on the
  -- original string before stripping; `""` is falsy in the Python `or`)
  let core_string := joinSpace core_tokens
  let acronym := resolveAcronym cfg.acronym original core_tokens
  let warnings := warnings1
    ++ (if optTruthy acronym ∧ is_collision data (acronym.getD []) then
          ["collision_acronym"] else [])
  -- 12. blocking keys
  let keys := generateBlockingKeys core_tokens core_string acronym
  { original := original
    normalized_text := normalized_text
    raw_tokens := raw_tokens
    core_tokens := core_tokens
    core_string := core_string
    acronym := acronym
    numeric_tokens := numeric_tokens
    keys := keys
    meta := { removed_designators := removed_designators
              removed_institution_location := removed_categories
              warnings := warnings } }

/-! ### Blocking index (`bizmatch/index.py`, the twin of the absent
`cm/index.py`) -/

/-- The inverted index: composite key `(key_type, key_value)` — the
source's `f"{key_type}::{key_value}"`, injectively modelled as the
pair — mapped to the posting list of B ids in insertion order. -/
abbrev BlockingIndexMap := List ((String × Str) × List Nat)

/-- Add one posting to the index (`self._index[composite_key].add(b_id)`;
within a build each name contributes a key at most once, and ids are
enumerated in order, so posting lists stay duplicate-free). -/
def addPosting (idx : BlockingIndexMap) (key : String × Str) (b_id : Nat) :
    BlockingIndexMap :=
  match idx with
  | [] => [(key, [b_id])]
  | (k, ids) :: rest =>
    if k = key then (k, if ids.contains b_id then ids else ids ++ [b_id]) :: rest
    else (k, ids) :: addPosting rest key b_id

/-- `BlockingIndex.build`: one posting per `(type, value)` pair of each
B name, skipping `k_first` when `use_k_first` is off. -/
def buildIndex (ccfg : CandidateConfig) (names : List NormalizedName) :
    BlockingIndexMap :=
  (names.enum.map (fun p => (p.2, p.1))).foldl
    (fun idx p =>
      p.1.keys.foldl
        (fun idx kv =>
          if kv.1 = "k_first" ∧ ¬ccfg.use_k_first then idx
          else addPosting idx kv p.2)
        idx)
    []

/-- Posting lookup (`self._index.get(composite_key, set())`). -/
def indexLookup (idx : BlockingIndexMap) (key : String × Str) : List Nat :=
  (lookupAssoc idx key).getD []

/-- The per-query candidate accumulator: B id mapped to its source set,
in first-touch order (the `defaultdict(set)` of the source). -/
abbrev CandAcc := List (Nat × List String)

/-- `candidates[b_id].add(key_type)` on the defaultdict: add the source
to an existing entry, or create a new entry at the end. -/
def addSource (cands : CandAcc) (b_id : Nat) (source : String) : CandAcc :=
  match cands with
  | [] => [(b_id, [source])]
  | (b, srcs) :: rest =>
    if b = b_id then (b, if srcs.contains source then srcs else srcs ++ [source]) :: rest
    else (b, srcs) :: addSource rest b_id source

/-- Stable insertion for the descending sort by source count
(`sort(key=len(sources), reverse=True)`; Python's sort is stable, so
ties keep first-touch order). -/
def insertBySourcesDesc (x : Nat × List String) : CandAcc → CandAcc
  | [] => [x]
  | y :: ys =>
    if y.2.length < x.2.length then x :: y :: ys
    else y :: insertBySourcesDesc x ys

/-- Stable descending sort of candidates by number of distinct source
key types. -/
def sortBySourcesDesc (cands : CandAcc) : CandAcc :=
  cands.foldl (fun acc x => insertBySourcesDesc x acc) []

/-- `BlockingIndex.retrieve_candidates`.  After the lexical cap the
source rebuilds `candidates` as a plain dict; the later embedding union
then indexes it with `candidates[b_id].add(...)`, which raises
`KeyError` when `b_id` was not kept — the embedding models this by
tracking whether the cap was applied. -/
def retrieve_candidates (ccfg : CandidateConfig) (idx : BlockingIndexMap)
    (a_name : NormalizedName) (embedding_candidates : Option (List Nat)) :
    Except PyErr (List Candidate) := do
  -- lexical blocking over the present keys of `a`
  let candidates : CandAcc :=
    a_name.keys.foldl
      (fun cands kv =>
        if kv.1 = "k_first" ∧ ¬ccfg.use_k_first then cands
        else (indexLookup idx kv).foldl (fun cs b => addSource cs b kv.1) cands)
      []
  -- lexical cap: keep the top `max_candidates_lexical` by source count;
  -- this is where the defaultdict becomes a plain dict
  let (candidates, capApplied) :=
    if ccfg.max_candidates_lexical < candidates.length then
      ((sortBySourcesDesc candidates).take ccfg.max_candidates_lexical, true)
    else (candidates, false)
  -- union with embedding candidates (`if embedding_candidates:`)
  let candidates ←
    match embedding_candidates with
    | none => pure candidates
    | some embs =>
      if embs = [] then pure candidates
      else
        (embs.take ccfg.max_candidates_embedding).foldlM
          (fun cands b_id =>
            if capApplied ∧ ¬(cands.map Prod.fst).contains b_id then
              Except.error PyErr.keyError
            else pure (addSource cands b_id ("embedding")))
          candidates
  -- total cap
  let candidates :=
    if ccfg.max_candidates_total < candidates.length then
      (sortBySourcesDesc candidates).take ccfg.max_candidates_total
    else candidates
  return candidates.map (fun p => { b_id := p.1, sources := p.2 })

/-! ### Scoring (`cm/scoring.py`) -/

/-- `_effective_core`: core tokens with designators removed for
comparison, falling back to the unfiltered core when everything is a
designator. -/
def effectiveCore (data : StaticData) (name : NormalizedName) :
    List Str × Str :=
  let effective := name.core_tokens.filter (fun t => !is_designator data t)
  if effective.length = 0 then (name.core_tokens, name.core_string)
  else (effective, joinSpace effective)

/-- Set equality of two deduplicated lists (Python `set(a) != set(b)`
negated). -/
def sameSet (a b : List Str) : Bool :=
  a.all (fun x => b.contains x) && b.all (fun x => a.contains x)

/-- The numeric-consistency penalty of `score_pair` (step 4 of the
source) together with its reason tags. -/
def numericPenalty (pen : Penalties) (a b : NormalizedName) :
    ℚ × List String :=
  let a_nums := a.numeric_tokens.dedup
  let b_nums := b.numeric_tokens.dedup
  if a_nums ≠ [] ∧ b_nums ≠ [] then
    if ¬sameSet a_nums b_nums then (pen.numeric_mismatch, ["numeric_mismatch"])
    else (0, [])
  else if a_nums ≠ [] ∨ b_nums ≠ [] then
    (pen.numeric_one_side_only, ["numeric_one_side_only"])
  else (0, [])

/-- Step 1 of `score_pair`: the token-overlap coefficient
`|A∩B| / min(|A|, |B|)` over the effective-core token sets. -/
def token_overlap_feature (data : StaticData) (a b : NormalizedName) : ℚ :=
  let a_set := (effectiveCore data a).1.dedup
  let b_set := (effectiveCore data b).1.dedup
  let min_len := min a_set.length b_set.length
  if 0 < min_len then
    ((a_set.filter (fun t => b_set.contains t)).length : ℚ) / min_len
  else 0

/-- Step 2 of `score_pair`: the rapidfuzz `WRatio` of the effective-core
strings, scaled to `[0, 1]`. -/
def fuzzy_feature (fuzz : Str → Str → ℚ) (data : StaticData)
    (a b : NormalizedName) : ℚ :=
  fuzz (effectiveCore data a).2 (effectiveCore data b).2 / 100

/-- Step 3 of `score_pair`: the score attached to each acronym
relation. -/
def acronymScoreOfRel (acr_rel : String) : ℚ :=
  if acr_rel = "exact" then 1
  else if acr_rel = "initialism" then 0.9
  else if acr_rel = "collision" then 0.3
  else 0

/-- Step 5 of `score_pair`: the short-name guardrail penalty on the
original core lengths. -/
def shortPenaltyOf (pen : Penalties) (min_core_len : Nat) : ℚ :=
  if min_core_len ≤ 1 then pen.short_name_guardrail else 0

/-- Step 6 of `score_pair`: the semantic feature is applicable iff a
cosine was supplied and both cores have at least two tokens. -/
def hasSemanticOf (embedding_cosine : Option ℚ) (min_core_len : Nat) : Bool :=
  embedding_cosine.isSome && decide (1 < min_core_len)

/-- Step 6 of `score_pair`: `max(0, cosine)` when applicable, else 0. -/
def semanticScoreOf (embedding_cosine : Option ℚ) (min_core_len : Nat) : ℚ :=
  if hasSemanticOf embedding_cosine min_core_len then
    max 0 (embedding_cosine.getD 0)
  else 0

/-- The normalized weighted combination of `score_pair` (lines 112-133
of `cm/scoring.py`), before the semantic cap: weighted sum over the
active weights, penalties subtracted, clamped to `[0, 1]`. -/
def preCapScore (w : ScoringWeights)
    (overlap fuzzy_score acronym_score semantic_score penalty
      short_penalty : ℚ) (has_semantic : Bool) : ℚ :=
  let active0 := w.token_overlap + w.fuzzy_similarity
  let wsum0 := w.token_overlap * overlap + w.fuzzy_similarity * fuzzy_score
  let active1 := active0 + (if 0 < acronym_score then w.acronym_signal else 0)
  let wsum1 := wsum0
    + (if 0 < acronym_score then w.acronym_signal * acronym_score else 0)
  let active2 := active1
    + (if has_semantic ∧ 0 < semantic_score then w.semantic_similarity else 0)
  let wsum2 := wsum1
    + (if has_semantic ∧ 0 < semantic_score then
        w.semantic_similarity * semantic_score else 0)
  let raw_score := if 0 < active2 then wsum2 / active2 else 0
  max 0 (min 1 (raw_score - penalty - short_penalty))

/-- The lexical-only combination of `score_pair` (lines 137-145 of
`cm/scoring.py`): the same weighted formula with the semantic term
excluded, minus the penalties.  Rational division is total (`x / 0 = 0`),
which coincides with the source's guarded `raw_score` when the active
weight sum is zero (the source raises `ZeroDivisionError` there, which
the embedding surfaces in `score_pair` itself). -/
def lexicalOnlyScore (w : ScoringWeights) (overlap fuzzy_score acronym_score
    penalty short_penalty : ℚ) : ℚ :=
  let lexical_weight := w.token_overlap + w.fuzzy_similarity
    + (if 0 < acronym_score then w.acronym_signal else 0)
  let lexical_sum := w.token_overlap * overlap + w.fuzzy_similarity * fuzzy_score
    + (if 0 < acronym_score then w.acronym_signal * acronym_score else 0)
  lexical_sum / lexical_weight - penalty - short_penalty

/-- `score_pair`: deterministic scoring of a candidate pair.  `fuzz` is
the external rapidfuzz `WRatio` collaborator (percent scale).  The
returned candidate has `b_id = 0`; the matcher overwrites it. -/
def score_pair (data : StaticData) (fuzz : Str → Str → ℚ)
    (a b : NormalizedName) (config : MatchConfig)
    (embedding_cosine : Option ℚ) : Except PyErr ScoredCandidate := do
  let weights := config.scoring
  let penalties := config.penalties
  -- 1. token overlap coefficient on the effective-core token sets
  let overlap := token_overlap_feature data a b
  -- 2. fuzzy similarity (WRatio scaled to [0, 1])
  let fuzzy_score := fuzzy_feature fuzz data a b
  -- 3. acronym relation
  let acr_rel ← acronym_relation data a.acronym a.core_tokens b.acronym b.core_tokens
  let acronym_score := acronymScoreOfRel acr_rel
  -- 4. numeric consistency
  let penalty := (numericPenalty penalties a b).1
  let numeric_reasons := (numericPenalty penalties a b).2
  -- 5. short-name guardrail on the original core lengths
  let min_core_len := min a.core_tokens.length b.core_tokens.length
  let short_penalty := shortPenaltyOf penalties min_core_len
  -- 6. optional semantic similarity
  let has_semantic := hasSemanticOf embedding_cosine min_core_len
  let semantic_score := semanticScoreOf embedding_cosine min_core_len
  let reasons : List String :=
    (if (0.8 : ℚ) ≤ overlap then ["core_overlap_high"] else [])
    ++ (if (0.85 : ℚ) ≤ fuzzy_score then ["fuzzy_high"] else [])
    ++ (if acr_rel = "exact" ∨ acr_rel = "initialism" then ["acronym_match_strong"]
        else if acr_rel = "collision" then ["acronym_match_weak"] else [])
    ++ numeric_reasons
    ++ (if min_core_len ≤ 1 then ["short_name_guardrail"] else [])
    ++ (if has_semantic ∧ (0.85 : ℚ) ≤ semantic_score then ["semantic_boost"] else [])
  -- weighted combination normalized by the active weight sum,
  -- penalties applied, clamped
  let score := preCapScore weights overlap fuzzy_score acronym_score
    semantic_score penalty short_penalty has_semantic
  -- semantic cap: semantic evidence alone must not cross T_high
  let capped ←
    if has_semantic then do
      let lexical_weight := weights.token_overlap + weights.fuzzy_similarity
        + (if 0 < acronym_score then weights.acronym_signal else 0)
      if lexical_weight = 0 then
        Except.error PyErr.zeroDivisionError
      else
        let lexical_only_score := lexicalOnlyScore weights overlap fuzzy_score
          acronym_score penalty short_penalty
        if lexical_only_score < config.thresholds.t_high
            ∧ config.thresholds.t_high ≤ score then
          pure (config.thresholds.t_high - 0.01, true)
        else pure (score, false)
    else pure (score, false)
  let final_score := capped.1
  let reasons := reasons ++ (if capped.2 then ["semantic_capped"] else [])
  return { b_id := 0
           score := final_score
           features :=
             [("token_overlap", FeatureValue.num overlap),
              ("fuzzy_similarity", FeatureValue.num fuzzy_score),
              ("acronym_relation", FeatureValue.tag acr_rel),
              ("acronym_score", FeatureValue.num acronym_score),
              ("numeric_penalty", FeatureValue.num penalty),
              ("short_name_penalty", FeatureValue.num short_penalty),
              ("semantic_similarity", FeatureValue.num semantic_score),
              ("final_score", FeatureValue.num final_score)]
           reasons := reasons }

/-! ### LLM arbiter (`cm/llm_arbiter.py`) -/

/-- The structured evidence payload of `_build_prompt`; its JSON
serialization is the external collaborator's concern. -/
structure PromptData where
  name_a_original : Str
  name_b_original : Str
  name_a_core : Str
  name_b_core : Str
  a_tokens : List Str
  b_tokens : List Str
  a_acronym : Option Str
  b_acronym : Option Str
  numeric_tokens_a : List Str
  numeric_tokens_b : List Str
  deterministic_score : ℚ
  margin : ℚ
  deriving DecidableEq, Repr

/-- The LLM provider collaborator: `query(prompt) → raw_text`, which
may raise (transport error). -/
abbrev LLMProvider := PromptData → Except Unit String

/-- The JSON-parsing collaborator used by `_parse_response`: `none`
models every exception the source catches (`JSONDecodeError`,
`KeyError`, `TypeError`). -/
abbrev ParseOracle := String → Option (String × ℚ × String)

/-- Mutable state of `LLMArbiter`: the response cache and the global
call counter.  The cache key — a pair of sha256-prefix hashes of the
two core strings in the source — is modelled as the (order-sensitive)
pair of core strings itself. -/
structure ArbiterState where
  cache : List ((Str × Str) × LLMResponse) := []
  global_calls : Nat := 0
  deriving DecidableEq, Repr

/-- `_cache_key`. -/
def cacheKey (a b : NormalizedName) : Str × Str :=
  (a.core_string, b.core_string)

/-- `_parse_response`. -/
def parseResponse (parse : ParseOracle) (raw : String) : LLMResponse :=
  match parse raw with
  | some (d, c, r) => { decision := d, confidence := c, reason := r }
  | none => { decision := "UNSURE", confidence := 0, reason := "parse_error" }

/-- `_map_response`: SAME/DIFFERENT with sufficient confidence map to
MATCH/NO_MATCH, everything else to REVIEW. -/
def mapResponse (cfg : LLMConfig) (response : LLMResponse) : String :=
  if response.decision = "SAME" ∧ cfg.min_confidence ≤ response.confidence then
    "MATCH"
  else if response.decision = "DIFFERENT" ∧ cfg.min_confidence ≤ response.confidence then
    "NO_MATCH"
  else "REVIEW"

/-- `is_eligible`: the gating rules (numeric conflict, token counts,
close race, global cap, both-single-token). -/
def is_eligible (cfg : LLMConfig) (global_calls : Nat) (a b : NormalizedName)
    (scored : ScoredCandidate) (runner_up_score : Option ℚ) : Bool :=
  if ¬cfg.enabled then false
  else
    let a_nums := a.numeric_tokens.dedup
    let b_nums := b.numeric_tokens.dedup
    if a_nums ≠ [] ∧ b_nums ≠ [] ∧ ¬sameSet a_nums b_nums then false
    else if a.core_tokens.length < 2 ∧ b.core_tokens.length < 2 then false
    else if (match runner_up_score with
             | some r => decide (cfg.min_confidence ≤ scored.score - r)
             | none => false : Bool) then false
    else if cfg.global_call_cap ≤ global_calls then false
    else if cfg.forbid_both_single_token
        ∧ a.core_tokens.length = 1 ∧ b.core_tokens.length = 1 then false
    else true

/-- `_build_prompt` as the structured payload. -/
def buildPrompt (a b : NormalizedName) (scored : ScoredCandidate)
    (runner_up_score : Option ℚ) : PromptData :=
  { name_a_original := a.original
    name_b_original := b.original
    name_a_core := a.core_string
    name_b_core := b.core_string
    a_tokens := a.core_tokens
    b_tokens := b.core_tokens
    a_acronym := a.acronym
    b_acronym := b.acronym
    numeric_tokens_a := a.numeric_tokens
    numeric_tokens_b := b.numeric_tokens
    deterministic_score := scored.score
    margin := scored.score - runner_up_score.getD 0 }

/-- `LLMArbiter.arbitrate`: cache lookup, missing-provider default,
provider call with transport-error handling, parse, count and cache.
Returns the mapped decision, the raw response and the updated state. -/
def arbitrate (cfg : LLMConfig) (provider : Option LLMProvider)
    (parse : ParseOracle) (st : ArbiterState) (a b : NormalizedName)
    (scored : ScoredCandidate) (runner_up_score : Option ℚ) :
    String × LLMResponse × ArbiterState :=
  let key := cacheKey a b
  match lookupAssoc st.cache key with
  | some response => (mapResponse cfg response, response, st)
  | none =>
    match provider with
    | none =>
      let response : LLMResponse :=
        { decision := "UNSURE", confidence := 0, reason := "no_provider" }
      ("REVIEW", response, st)
    | some p =>
      let prompt := buildPrompt a b scored runner_up_score
      match p prompt with
      | Except.error _ =>
        let response : LLMResponse :=
          { decision := "UNSURE", confidence := 0, reason := "error" }
        ("REVIEW", response, { st with cache := (key, response) :: st.cache })
      | Except.ok raw_response =>
        let response := parseResponse parse raw_response
        let st' : ArbiterState :=
          { cache := (key, response) :: st.cache
            global_calls := st.global_calls + 1 }
        (mapResponse cfg response, response, st')

/-! ### Matcher (`cm/matcher.py`) -/

/-- The margin condition of `_decide`: `margin is None or
margin >= t.margin`. -/
def marginOk (tm : ℚ) : Option ℚ → Prop
  | none => True
  | some m => tm ≤ m

instance (tm : ℚ) (margin : Option ℚ) : Decidable (marginOk tm margin) := by
  cases margin <;> simp only [marginOk] <;> infer_instance

/-- `Matcher._decide`: the decision bands. -/
def decideBand (t : Thresholds) (best_score : ℚ)
    (runner_up_score : Option ℚ) (margin : Option ℚ) : String :=
  if best_score ≤ t.t_low then "NO_MATCH"
  else if t.t_high ≤ best_score ∧ marginOk t.margin margin then "MATCH"
  else "REVIEW"

/-- Stable insertion for the descending sort by score
(`scored_candidates.sort(key=score, reverse=True)`; ties keep the
original order). -/
def insertByScoreDesc (x : ScoredCandidate) :
    List ScoredCandidate → List ScoredCandidate
  | [] => [x]
  | y :: ys => if y.score < x.score then x :: y :: ys else y :: insertByScoreDesc x ys

/-- Stable descending sort of scored candidates. -/
def sortByScoreDesc (l : List ScoredCandidate) : List ScoredCandidate :=
  l.foldl (fun acc x => insertByScoreDesc x acc) []

/-- The parameter names accepted by `LLMArbiter.arbitrate`
(`llm_arbiter.py:76-82`), beyond `self`. -/
def arbitrateParams : List String := ["a", "b", "scored", "runner_up_score"]

/-- The extra keyword arguments the matcher passes at the call site
(`matcher.py:169`). -/
def matcherCallKeywords : List String := ["strip_categories"]

/-- Python call binding: a keyword argument that is not among the
callee's parameters raises `TypeError` before the body runs. -/
def callArbitrate (kwargs : List String) (cfg : LLMConfig)
    (provider : Option LLMProvider) (parse : ParseOracle) (st : ArbiterState)
    (a b : NormalizedName) (scored : ScoredCandidate)
    (runner_up_score : Option ℚ) :
    Except PyErr (String × LLMResponse × ArbiterState) :=
  if kwargs.all (fun k => arbitrateParams.contains k) then
    Except.ok (arbitrate cfg provider parse st a b scored runner_up_score)
  else Except.error PyErr.typeError

/-- Stage 2 of `match_one`: score every candidate, computing the
cosine when embeddings are enabled and setting `b_id` on the result. -/
def scoreStage (data : StaticData) (fuzz : Str → Str → ℚ) (cfg : MatchConfig)
    (embCos : Str → Str → Option ℚ) (a : NormalizedName)
    (b_names : List NormalizedName) :
    List Candidate → Except PyErr (List ScoredCandidate)
  | [] => Except.ok []
  | cand :: rest => do
    let b ← listGet b_names cand.b_id
    let embedding_cosine :=
      if cfg.embedding.enabled then embCos a.core_string b.core_string else none
    let sc ← score_pair data fuzz a b cfg embedding_cosine
    let scs ← scoreStage data fuzz cfg embCos a b_names rest
    return { sc with b_id := cand.b_id } :: scs

/-- Stage 4 of `match_one`: walk the top-K candidates, and on the first
eligible one call the arbiter — with the `strip_categories` keyword of
the call site.  Returns the override (decision, candidate, B name,
state) of the first non-REVIEW arbitration, if any. -/
def arbLoop (cfg : MatchConfig) (provider : Option LLMProvider)
    (parse : ParseOracle) (a : NormalizedName)
    (b_names : List NormalizedName) (sc_runner : Option ℚ) :
    ArbiterState → List ScoredCandidate →
    Except PyErr (Option (String × ScoredCandidate × NormalizedName × ArbiterState))
  | _, [] => Except.ok none
  | st, sc :: rest => do
    let b_cand ← listGet b_names sc.b_id
    if is_eligible cfg.llm st.global_calls a b_cand sc sc_runner then do
      let (llm_decision, _llm_response, st') ←
        callArbitrate matcherCallKeywords cfg.llm provider parse st a b_cand sc sc_runner
      if llm_decision ≠ "REVIEW" then
        return some (llm_decision, sc, b_cand, st')
      else arbLoop cfg provider parse a b_names sc_runner st' rest
    else arbLoop cfg provider parse a b_names sc_runner st rest

/-- The early `NO_MATCH` result when no candidates are retrieved. -/
def noCandidateResult (a_id : Nat) (a : NormalizedName) : MatchResult :=
  { a_id := a_id
    a_name := a.original
    b_id := none
    b_name := none
    decision := "NO_MATCH"
    score := 0
    reasons := ["no_candidates"] }

/-- Stages 3-5 of `match_one`: decision bands, optional arbitration of
the top-K, and assembly of the `MatchResult`. -/
def finishStage (cfg : MatchConfig) (provider : Option LLMProvider)
    (parse : ParseOracle) (st : ArbiterState) (a : NormalizedName)
    (b_names : List NormalizedName) (a_id : Nat) (candidate_count : Nat)
    (best : ScoredCandidate) (rest : List ScoredCandidate) :
    Except PyErr MatchResult := do
  let runner_up_score := rest.head?.map (fun sc => sc.score)
  let margin := runner_up_score.map (fun r => best.score - r)
  let best_b ← listGet b_names best.b_id
  let decision := decideBand cfg.thresholds best.score runner_up_score margin
  let override ←
    if decision = "REVIEW" ∧ cfg.llm.enabled then
      let top_k := (best :: rest).take cfg.llm.top_k
      let sc_runner := (top_k.get? 1).map (fun sc => sc.score)
      arbLoop cfg provider parse a b_names sc_runner st top_k
    else pure none
  let (decision, best, best_b, used_llm) :=
    match override with
    | some (d, sc, b, _) => (d, sc, b, true)
    | none => (decision, best, best_b, false)
  return { a_id := a_id
           a_name := a.original
           b_id := if decision = "MATCH" then some best.b_id else none
           b_name := if decision = "MATCH" then some best_b.original else none
           decision := decision
           score := best.score
           runner_up_score := runner_up_score
           margin := margin
           used_llm := used_llm
           reasons := best.reasons
           debug := { top_candidates :=
                        ((best :: rest).take 5).map
                          (fun sc => (sc.b_id, sc.score, sc.reasons))
                      warnings := a.meta.warnings
                      candidate_count := candidate_count } }

/-- `Matcher.match_one`: normalize A, retrieve candidates (blocking
plus optional embedding ids from the `embQuery` oracle), score, sort,
decide and optionally arbitrate.  `b_names_raw` is the reference list B
normalized during `preprocess_b`. -/
def matchOne (data : StaticData) (fuzz : Str → Str → ℚ) (cfg : MatchConfig)
    (embQuery : Str → List Nat) (embCos : Str → Str → Option ℚ)
    (provider : Option LLMProvider) (parse : ParseOracle) (st : ArbiterState)
    (b_names_raw : List Str) (a_name : Str) (a_id : Nat) :
    Except PyErr MatchResult := do
  let a := normalize data cfg a_name
  let b_names := b_names_raw.map (normalize data cfg)
  let idx := buildIndex cfg.candidates b_names
  let embedding_candidates :=
    if cfg.embedding.enabled then some (embQuery a.core_string) else none
  let candidates ← retrieve_candidates cfg.candidates idx a embedding_candidates
  if candidates = [] then
    return noCandidateResult a_id a
  else do
    let scored ← scoreStage data fuzz cfg embCos a b_names candidates
    let sorted := sortByScoreDesc scored
    match sorted with
    | [] => Except.error PyErr.indexError
    | best :: rest =>
      finishStage cfg provider parse st a b_names a_id candidates.length best rest

/-! ## Concrete instantiations used by witnesses and counterexamples

The static word-list files are not in the source tree; `exampleData`
instantiates them with contents matching the spec's own examples
(`&` → ` and `, dotted aliases such as `inc.` → `inc`, designators such
as `inc`, `llc`, `corp`, `gmbh`). -/

def exampleData : StaticData :=
  { replacements := [("&".toList, " and ".toList)]
    aliases := [("inc.".toList, "inc".toList), ("l.l.c".toList, "llc".toList)]
    designators := ["inc".toList, "llc".toList, "corp".toList,
                    "gmbh".toList, "sa".toList, "co".toList]
    collision_list := ["ge".toList]
    categories := [("location", ["germany".toList, "usa".toList])] }

/-- Empty static data (all files absent degrade to empty sets). -/
def emptyData : StaticData :=
  { replacements := [], aliases := [], designators := [],
    collision_list := [], categories := [] }

/-! ## Claims -/

/-- **C8.** For every best score, runner-up score and margin, and fixed
`T_low` and `T_margin`, `_decide` is monotone in `T_high`: if it
returns NO_MATCH or REVIEW at threshold `t1`, it does not return MATCH
at any larger threshold `t2 > t1`. -/
theorem c8_decide_monotone_in_t_high (tl tm t1 t2 best : ℚ)
    (ru margin : Option ℚ) (hlt : t1 < t2)
    (h : decideBand ⟨t1, tl, tm⟩ best ru margin = "NO_MATCH"
       ∨ decideBand ⟨t1, tl, tm⟩ best ru margin = "REVIEW") :
    decideBand ⟨t2, tl, tm⟩ best ru margin ≠ "MATCH" := by
  intro hMatch2
  unfold decideBand at h hMatch2
  by_cases hlow : best ≤ tl
  · rw [if_pos hlow] at hMatch2
    exact absurd hMatch2 (by decide)
  · rw [if_neg hlow] at h hMatch2
    by_cases hc2 : t2 ≤ best ∧ marginOk tm margin
    · have hc1 : t1 ≤ best ∧ marginOk tm margin :=
        ⟨le_of_lt (lt_of_lt_of_le hlt hc2.1), hc2.2⟩
      rw [if_pos hc1] at h
      rcases h with h | h <;> exact absurd h (by decide)
    · rw [if_neg hc2] at hMatch2
      exact absurd hMatch2 (by decide)

/-- Witness for C8 at concrete inputs: with defaults
`T_low = 0.75`, `T_margin = 0.06`, a best score of `0.8` is REVIEW at
`T_high = 0.92`, and raising the threshold to `0.95` does not produce
MATCH. -/
theorem c8_decide_monotone_in_t_high_witness :
    decideBand ⟨0.95, 0.75, 0.06⟩ 0.8 none none ≠ "MATCH" :=
  c8_decide_monotone_in_t_high 0.75 0.06 0.92 0.95 0.8 none none
    (by norm_num) (Or.inr (by norm_num [decideBand, marginOk]))

/-- **C4.** The safety revert is atomic but silent.  At the failing
input `"llc corp"` (both tokens designators, so suffix stripping would
leave 0 < 2 tokens): the returned `core_tokens` equal `raw_tokens`,
`meta.removed_designators` is empty — and, contrary to the claim and to
the docstring of `strip_designators` ("caller should add warning"),
`meta.warnings` is empty: the caller's warning branch requires a
non-empty removed list and is unreachable. -/
theorem c4_revert_without_warning :
    strippedCore exampleData false ["llc".toList, "corp".toList] = []
    ∧ (normalize exampleData {} "llc corp".toList).raw_tokens
        = ["llc".toList, "corp".toList]
    ∧ (normalize exampleData {} "llc corp".toList).core_tokens
        = ["llc".toList, "corp".toList]
    ∧ (normalize exampleData {} "llc corp".toList).meta.removed_designators = []
    ∧ (normalize exampleData {} "llc corp".toList).meta.warnings = [] := by
  refine ⟨by decide, by decide, by decide, by decide, by decide⟩

/-! ### C5: behaviour on the empty input -/

/-- `pyReplace` of the empty string is empty when the pattern is
nonempty. -/
theorem pyReplace_nil {old new : Str} (h : old ≠ []) :
    pyReplace [] old new = [] := by
  unfold pyReplace
  rw [if_neg h]
  rfl

/-- Replacements with nonempty keys leave the empty string empty. -/
theorem applyReplacements_nil {reps : List (Str × Str)}
    (h : ∀ kv ∈ reps, kv.1 ≠ ([] : Str)) :
    applyReplacements reps [] = [] := by
  induction reps with
  | nil => rfl
  | cons kv rest ih =>
    have hk : kv.1 ≠ [] := h kv (List.mem_cons_self kv rest)
    have hrest : ∀ kv ∈ rest, kv.1 ≠ ([] : Str) :=
      fun kv hm => h kv (List.mem_cons_of_mem _ hm)
    unfold applyReplacements at ih ⊢
    rw [List.foldl_cons, pyReplace_nil hk]
    exact ih hrest

/-- The category loop fixes the empty token list. -/
theorem categoryLoop_nil (data : StaticData) (ncfg : NormalizationConfig)
    (n : Nat) : categoryLoop data ncfg (n + 1) [] = ([], [], []) := by
  have hpass : categoryPass data ncfg [] = ([], [], []) := by
    unfold categoryPass strip_word_categories strip_designators strippedCore
      strippedBounds strippedRemoved
    simp
  unfold categoryLoop
  rw [hpass]
  simp

/-- **C5 counterexample.** For the empty input the `keys` mapping is
not empty: the code unconditionally emits `k_core` mapped to the empty
string (`_generate_blocking_keys` has no guard on `k_core`). -/
theorem c5_empty_input_has_k_core :
    (normalize exampleData {} "".toList).keys = [("k_core", [])]
    ∧ (normalize exampleData {} "".toList).keys ≠ [] := by
  refine ⟨by decide, by decide⟩

/-- **C5 (amended).** `normalize` is total by construction; for every
static data whose replacement keys are nonempty and every config with a
positive acronym minimum length, the empty input yields empty
`raw_tokens`, `core_tokens` and `numeric_tokens`, no acronym, and a
keys mapping consisting of exactly the single entry
`k_core ↦ ""` (not an empty mapping). -/
theorem c5_normalize_empty_input (data : StaticData) (cfg : MatchConfig)
    (hrep : ∀ kv ∈ data.replacements, kv.1 ≠ ([] : Str))
    (hmin : 1 ≤ cfg.acronym.min_length) :
    (normalize data cfg []).raw_tokens = []
    ∧ (normalize data cfg []).core_tokens = []
    ∧ (normalize data cfg []).numeric_tokens = []
    ∧ (normalize data cfg []).acronym = none
    ∧ (normalize data cfg []).keys = [("k_core", [])] := by
  have h0 : applyReplacements data.replacements [] = [] :=
    applyReplacements_nil hrep
  have hacr : resolveAcronym cfg.acronym [] [] = none := by
    unfold resolveAcronym normalize_acronym_input generate_acronym pyOrOptStr
    simp [Nat.lt_of_lt_of_le Nat.zero_lt_one hmin]
  have hloop10 : categoryLoop data cfg.normalization 10 ([] : List Str)
      = ([], [], []) := by
    rw [show (10 : Nat) = 9 + 1 from rfl]
    exact categoryLoop_nil _ _ _
  unfold normalize
  simp [h0, hloop10, hacr, splitBy, splitByGo, cleanupTokens,
    strip_designators, strippedCore, strippedBounds, strippedRemoved,
    extractNumericTokens, joinSpace, generateBlockingKeys, optTruthy]

/-- Witness for C5 at concrete data: the spec-modelled word lists have
nonempty replacement keys and the default acronym minimum is 3. -/
theorem c5_normalize_empty_input_witness :
    (normalize exampleData {} []).raw_tokens = []
    ∧ (normalize exampleData {} []).core_tokens = []
    ∧ (normalize exampleData {} []).numeric_tokens = []
    ∧ (normalize exampleData {} []).acronym = none
    ∧ (normalize exampleData {} []).keys = [("k_core", [])] :=
  c5_normalize_empty_input exampleData {} (by decide) (by decide)

/-! ### C6: acronym invariants -/

/-- Whole-input acronym detection only accepts at least three
letters. -/
theorem normalize_acronym_input_length {text : Str} {ac : Str}
    (h : normalize_acronym_input text = some ac) : 3 ≤ ac.length := by
  simp only [normalize_acronym_input] at h
  by_cases hc : 3 ≤ (List.filter
        (fun c => !(decide (c = '.') || isSpaceChar c)) text).length
      ∧ isAlphaStr (List.filter
        (fun c => !(decide (c = '.') || isSpaceChar c)) text) = true
      ∧ ((splitBy (fun c => decide (c = '.') || isSpaceChar c) text).all
          fun part => decide (part.length = 1)) = true
  · rw [if_pos hc] at h
    cases h
    simpa using hc.1
  · rw [if_neg hc] at h
    exact absurd h (by simp)

/-- `generate_acronym` only returns strings of at least the configured
minimum length. -/
theorem generate_acronym_length {acfg : AcronymConfig} {toks : List Str}
    {ac : Str} (h : generate_acronym acfg toks = some ac) :
    acfg.min_length ≤ ac.length := by
  simp only [generate_acronym] at h
  by_cases h1 : toks.length < acfg.min_length
  · rw [if_pos h1] at h
    exact absurd h (by simp)
  · rw [if_neg h1] at h
    by_cases h2 : (toks.filterMap (fun t => t.head?)).length < acfg.min_length
    · rw [if_pos h2] at h
      exact absurd h (by simp)
    · rw [if_neg h2] at h
      cases h
      exact le_of_not_lt h2

/-- Case analysis of the Python `or` on optional strings. -/
theorem pyOrOptStr_eq_some {a b : Option Str} {ac : Str}
    (h : pyOrOptStr a b = some ac) : a = some ac ∨ b = some ac := by
  cases a with
  | none => exact Or.inr h
  | some s =>
    simp only [pyOrOptStr] at h
    split_ifs at h with hs
    · exact Or.inr h
    · cases h; exact Or.inl rfl

/-- Every acronym produced by `resolveAcronym` has length at least
`min(min_length, 3)`. -/
theorem resolveAcronym_min_length {acfg : AcronymConfig} {original : Str}
    {toks : List Str} {ac : Str}
    (h : resolveAcronym acfg original toks = some ac) :
    min acfg.min_length 3 ≤ ac.length := by
  simp only [resolveAcronym] at h
  rcases hp : pyOrOptStr (normalize_acronym_input original)
      (generate_acronym acfg toks) with _ | a
  · rw [hp] at h
    split_ifs at h with h1 h2
    cases h
    exact le_trans (min_le_left _ _) h2.2.1
  · rw [hp] at h
    cases h
    rcases pyOrOptStr_eq_some hp with hi | hg
    · exact le_trans (min_le_right _ _) (normalize_acronym_input_length hi)
    · exact le_trans (min_le_left _ _) (generate_acronym_length hg)

/-- **C6 counterexample.** Two violations of the claim: with default
config, `"alpha 2020 beta delta"` gets the acronym `a2bd`, which
contains the digit `2` (not alphabetic); and with
`acronym.min_length = 4`, the whole-input detection of `"a.b.c"` still
produces `abc` of length `3 < 4`. -/
theorem c6_acronym_claim_fails :
    ((normalize exampleData {} "alpha 2020 beta delta".toList).acronym
        = some ("a2bd".toList)
      ∧ isAlphaStr ("a2bd".toList) = false)
    ∧ ((normalize exampleData { acronym := { min_length := 4 } }
          "a.b.c".toList).acronym = some ("abc".toList)
      ∧ ("abc".toList).length < 4) := by
  refine ⟨⟨by decide, by decide⟩, by decide, by decide⟩

/-- **C6 (amended).** For every input string, static data and config,
a non-null acronym returned by `normalize` has length at least
`min(config.acronym.min_length, 3)` (the whole-input detector uses the
hard-coded minimum 3); its characters are drawn from the core tokens or
the lowered input letters and need not be alphabetic. -/
theorem c6_acronym_min_length (data : StaticData) (cfg : MatchConfig)
    (s : Str) (ac : Str) (h : (normalize data cfg s).acronym = some ac) :
    min cfg.acronym.min_length 3 ≤ ac.length := by
  have heq : (normalize data cfg s).acronym
      = resolveAcronym cfg.acronym s (normalize data cfg s).core_tokens := rfl
  rw [heq] at h
  exact resolveAcronym_min_length h

/-- Witness for C6: `normalize("I.B.M.")` yields the acronym `ibm` and
the theorem applies with `min(3, 3) ≤ 3`. -/
theorem c6_acronym_min_length_witness :
    min ({} : MatchConfig).acronym.min_length 3 ≤ ("ibm".toList).length :=
  c6_acronym_min_length exampleData {} ("I.B.M.".toList) ("ibm".toList) (by decide)

/-! ### C3: retrieval failure semantics -/

/-- A hand-built `NormalizedName` carrying only the fields retrieval
reads (retrieval accepts any `NormalizedName`). -/
def mkKeyedName (core : List Str) (keys : List (String × Str)) :
    NormalizedName :=
  { original := [], normalized_text := [], raw_tokens := core
    core_tokens := core, core_string := joinSpace core
    acronym := none, numeric_tokens := [], keys := keys }

/-- B entry 0: shares `k_core` and `k_prefix2` with the query. -/
def c3B0 : NormalizedName :=
  mkKeyedName [("x".toList)] [("k_core", "x".toList), ("k_prefix2", "y".toList)]

/-- B entry 1: shares only `k_core` with the query. -/
def c3B1 : NormalizedName :=
  mkKeyedName [("x".toList)] [("k_core", "x".toList)]

/-- B entry 2: lexically unrelated; reachable only as an embedding
candidate. -/
def c3B2 : NormalizedName :=
  mkKeyedName [("z".toList)] [("k_core", "zzz".toList)]

/-- The query name, matching `c3B0` on two key types and `c3B1` on
one. -/
def c3Query : NormalizedName :=
  mkKeyedName [("x".toList)] [("k_core", "x".toList), ("k_prefix2", "y".toList)]

/-- A candidate config whose lexical cap is 1, so that with two lexical
candidates the cap fires. -/
def c3Config : CandidateConfig := { max_candidates_lexical := 1 }

/-- The index built over the three B names. -/
def c3Index : BlockingIndexMap := buildIndex c3Config [c3B0, c3B1, c3B2]

/-- **C3.** The claim (and the spec's "retrieval never raises") is
right and the code is wrong: when the lexical cap has been applied
(candidates ids 0 and 1 exceed the cap 1; id 0 is kept with two
sources) and an embedding candidate id (2) is not among the kept
lexical candidates, `retrieve_candidates` raises `KeyError` — the
lexical-cap rebuild replaces the `defaultdict` with a plain dict which
the embedding union then indexes.  The empty-result half of the claim
does hold: with no matching posting and no embedding candidates the
result is `[]`. -/
theorem c3_retrieve_raises_keyerror :
    retrieve_candidates c3Config c3Index c3Query (some [2])
        = Except.error PyErr.keyError
    ∧ retrieve_candidates c3Config c3Index
        (mkKeyedName [("q".toList)] [("k_core", "qqq".toList)]) none
        = Except.ok []
    ∧ retrieve_candidates c3Config c3Index c3Query none
        = Except.ok [{ b_id := 0, sources := ["k_core", "k_prefix2"] }] := by
  refine ⟨by decide, by decide, by decide⟩

/-! ### C7: arbiter failure modes -/

/-- **C7 counterexample.**  Two failure modes contradict the claim on
a fresh arbiter state: a missing provider returns the synthetic
`no_provider` response but does **not** record it in the cache; and a
parse failure (provider returns unparseable text) **does** increment
the global call counter. -/
theorem c7_failure_bookkeeping_differs :
    ((arbitrate { enabled := true } none (fun _ => none) {}
        (mkKeyedName [("apple".toList), ("inc".toList)] [])
        (mkKeyedName [("apple".toList), ("corp".toList)] [])
        { b_id := 1, score := 0 } none).2.2.cache = []
      ∧ (arbitrate { enabled := true } none (fun _ => none) {}
          (mkKeyedName [("apple".toList), ("inc".toList)] [])
          (mkKeyedName [("apple".toList), ("corp".toList)] [])
          { b_id := 1, score := 0 } none).2.1.reason = "no_provider")
    ∧ (arbitrate { enabled := true }
        (some (fun _ => Except.ok ("this is not json")))
        (fun _ => none) {}
        (mkKeyedName [("apple".toList), ("inc".toList)] [])
        (mkKeyedName [("apple".toList), ("corp".toList)] [])
        { b_id := 1, score := 0 } none).2.2.global_calls = 1 := by
  refine ⟨⟨by decide, by decide⟩, by decide⟩

/-- **C7 (amended).** On a cache miss, the three failure modes of
`arbitrate` behave as follows: a missing provider returns REVIEW with
reason `no_provider`, neither cached nor counted; a transport error
returns REVIEW with reason `error`, cached but not counted; a parse
failure returns REVIEW with reason `parse_error`, cached **and**
counted against the global cap. -/
theorem c7_arbitrate_failure_modes (cfg : LLMConfig)
    (provider : Option LLMProvider) (parse : ParseOracle)
    (st : ArbiterState) (a b : NormalizedName) (scored : ScoredCandidate)
    (ru : Option ℚ)
    (hmiss : lookupAssoc st.cache (cacheKey a b) = none) :
    (provider = none →
      arbitrate cfg provider parse st a b scored ru
        = ("REVIEW", { decision := "UNSURE", confidence := 0,
                       reason := "no_provider" }, st))
    ∧ (∀ p, provider = some p →
        p (buildPrompt a b scored ru) = Except.error () →
        arbitrate cfg provider parse st a b scored ru
          = ("REVIEW", { decision := "UNSURE", confidence := 0,
                         reason := "error" },
             { st with cache := (cacheKey a b,
                 { decision := "UNSURE", confidence := 0,
                   reason := "error" }) :: st.cache }))
    ∧ (∀ p raw, provider = some p →
        p (buildPrompt a b scored ru) = Except.ok raw →
        parse raw = none →
        arbitrate cfg provider parse st a b scored ru
          = ("REVIEW", { decision := "UNSURE", confidence := 0,
                         reason := "parse_error" },
             { cache := (cacheKey a b,
                 { decision := "UNSURE", confidence := 0,
                   reason := "parse_error" }) :: st.cache
               global_calls := st.global_calls + 1 })) := by
  refine ⟨?_, ?_, ?_⟩
  · intro hp
    subst hp
    simp only [arbitrate, hmiss]
  · intro p hp herr
    subst hp
    simp only [arbitrate, hmiss, herr]
  · intro p raw hp hok hparse
    subst hp
    simp only [arbitrate, hmiss, hok, parseResponse, hparse, mapResponse]
    simp

/-! ### C1: the semantic cap -/

/-- Clamping to `[0, 1]` preserves strict domination by a positive
threshold. -/
theorem clamp_lt {x T : ℚ} (hx : x < T) (hT : 0 < T) :
    max 0 (min 1 x) < T :=
  max_lt hT (lt_of_le_of_lt (min_le_right 1 x) hx)

/-- Without a semantic term the combined pre-cap score is exactly the
clamped lexical-only value, provided the weights are nonnegative (the
division-by-zero convention of `lexicalOnlyScore` coincides with the
guarded `raw_score`). -/
theorem preCapScore_false_eq (w : ScoringWeights)
    (ov fz ac sem pen sh : ℚ)
    (hw1 : 0 ≤ w.token_overlap) (hw2 : 0 ≤ w.fuzzy_similarity)
    (hw3 : 0 ≤ w.acronym_signal) :
    preCapScore w ov fz ac sem pen sh false
      = max 0 (min 1 (lexicalOnlyScore w ov fz ac pen sh)) := by
  unfold preCapScore lexicalOnlyScore
  simp only [Bool.false_eq_true, false_and, if_false, add_zero]
  by_cases hpos : 0 < w.token_overlap + w.fuzzy_similarity
      + (if 0 < ac then w.acronym_signal else 0)
  · rw [if_pos hpos]
  · rw [if_neg hpos]
    have h0 : w.token_overlap + w.fuzzy_similarity
        + (if 0 < ac then w.acronym_signal else 0) = 0 := by
      refine le_antisymm (not_lt.1 hpos) ?_
      have hac : (0:ℚ) ≤ (if 0 < ac then w.acronym_signal else 0) := by
        split_ifs
        · exact hw3
        · exact le_refl 0
      exact add_nonneg (add_nonneg hw1 hw2) hac
    rw [h0, div_zero]

/-- A model of `fuzz.WRatio` agreeing with the real one on the pairs it
is evaluated at below (identical strings score 100). -/
def c1Fuzz : Str → Str → ℚ := fun x y => if x = y then 100 else 0

/-- A single-token `NormalizedName` used by the C1 counterexample. -/
def c1Name : NormalizedName := mkKeyedName [("x".toList)] []

/-- A degenerate but type-correct configuration: `T_high = -1` (the
dataclasses validate nothing) and a large short-name penalty. -/
def c1Cfg : MatchConfig :=
  { thresholds := { t_high := -1, t_low := 0.75, margin := 0.06 }
    penalties := { short_name_guardrail := 3 } }

/-- The score of a successful `score_pair` result. -/
def scoreOf : Except PyErr ScoredCandidate → Option ℚ
  | Except.ok sc => some sc.score
  | Except.error _ => none

/-- **C1 counterexample.**  With a supplied cosine but a single-token
pair (so the cap never runs) and the non-positive threshold
`T_high = -1`, the lexical-only combination is `-2 < T_high` yet the
returned score is `0 ≥ T_high`: the claim fails for such configs. -/
theorem c1_cap_claim_fails_for_nonpositive_t_high :
    lexicalOnlyScore c1Cfg.scoring
        (token_overlap_feature exampleData c1Name c1Name)
        (fuzzy_feature c1Fuzz exampleData c1Name c1Name)
        (acronymScoreOfRel ("none"))
        (numericPenalty c1Cfg.penalties c1Name c1Name).1
        (shortPenaltyOf c1Cfg.penalties
          (min c1Name.core_tokens.length c1Name.core_tokens.length))
      < c1Cfg.thresholds.t_high
    ∧ scoreOf (score_pair exampleData c1Fuzz c1Name c1Name c1Cfg (some (9/10)))
        = some 0
    ∧ c1Cfg.thresholds.t_high ≤ (0 : ℚ) := by
  have heff : effectiveCore exampleData c1Name
      = ([("x".toList)], ("x".toList)) := by decide
  have hded : (([("x".toList)] : List Str).dedup) = [("x".toList)] := by decide
  have hov : token_overlap_feature exampleData c1Name c1Name = 1 := by
    norm_num [token_overlap_feature, heff, hded]
  have hfz : fuzzy_feature c1Fuzz exampleData c1Name c1Name = 1 := by
    norm_num [fuzzy_feature, heff, c1Fuzz]
  have hnum : numericPenalty c1Cfg.penalties c1Name c1Name = (0, []) := by
    simp [numericPenalty, c1Name, mkKeyedName]
  have hsh : shortPenaltyOf c1Cfg.penalties
      (min c1Name.core_tokens.length c1Name.core_tokens.length) = 3 := by
    simp [shortPenaltyOf, c1Name, mkKeyedName, c1Cfg]
  have hshLen : shortPenaltyOf c1Cfg.penalties c1Name.core_tokens.length = 3 := by
    simp [shortPenaltyOf, c1Name, mkKeyedName, c1Cfg]
  have hwt : c1Cfg.scoring.token_overlap = 0.35 := rfl
  have hwf : c1Cfg.scoring.fuzzy_similarity = 0.30 := rfl
  have hwa : c1Cfg.scoring.acronym_signal = 0.20 := rfl
  have hws : c1Cfg.scoring.semantic_similarity = 0.15 := rfl
  have hth2 : c1Cfg.thresholds.t_high = -1 := rfl
  have hacr : acronymScoreOfRel ("none") = 0 := rfl
  refine ⟨?_, ?_, ?_⟩
  · rw [hov, hfz, hnum, hsh, hacr]
    norm_num [lexicalOnlyScore, hwt, hwf, hwa, hth2]
  · have hrel : acronym_relation exampleData c1Name.acronym c1Name.core_tokens
        c1Name.acronym c1Name.core_tokens = Except.ok ("none") := by decide
    have hsem0 : hasSemanticOf (some (9/10))
        (min c1Name.core_tokens.length c1Name.core_tokens.length) = false := by
      decide
    simp only [score_pair, hrel, bind, Except.bind, pure, Except.pure, hsem0,
      Bool.false_eq_true, if_false, scoreOf]
    have hsem0Len : hasSemanticOf (some (9/10)) c1Name.core_tokens.length
        = false := by decide
    rw [hacr]
    norm_num [preCapScore, hov, hfz, hnum, hsh, hshLen, semanticScoreOf,
      hsem0, hsem0Len, hwt, hwf, hwa, hws]
  · norm_num [hth2]

/-- **C1 (amended).** For every pair, config with positive `T_high` and
nonnegative scoring weights, fuzzy collaborator and optional cosine:
whenever `score_pair` returns (it raises `ZeroDivisionError` when the
active lexical weight is zero while a semantic term is present), if the
lexical-only combination is strictly below `T_high` then the returned
score is strictly below `T_high`; and when the cap fires (semantic term
present and the pre-cap score at or above `T_high`), the score is
exactly `T_high − 0.01` and `semantic_capped` is appended. -/
theorem c1_semantic_cap (data : StaticData) (fuzz : Str → Str → ℚ)
    (a b : NormalizedName) (cfg : MatchConfig) (cos : Option ℚ)
    (sc : ScoredCandidate) (rel : String)
    (hw1 : 0 ≤ cfg.scoring.token_overlap)
    (hw2 : 0 ≤ cfg.scoring.fuzzy_similarity)
    (hw3 : 0 ≤ cfg.scoring.acronym_signal)
    (hth : 0 < cfg.thresholds.t_high)
    (hrel : acronym_relation data a.acronym a.core_tokens b.acronym
        b.core_tokens = Except.ok rel)
    (hok : score_pair data fuzz a b cfg cos = Except.ok sc)
    (hlex : lexicalOnlyScore cfg.scoring (token_overlap_feature data a b)
        (fuzzy_feature fuzz data a b) (acronymScoreOfRel rel)
        (numericPenalty cfg.penalties a b).1
        (shortPenaltyOf cfg.penalties
          (min a.core_tokens.length b.core_tokens.length))
      < cfg.thresholds.t_high) :
    sc.score < cfg.thresholds.t_high
    ∧ (cfg.thresholds.t_high ≤ preCapScore cfg.scoring
          (token_overlap_feature data a b) (fuzzy_feature fuzz data a b)
          (acronymScoreOfRel rel)
          (semanticScoreOf cos (min a.core_tokens.length b.core_tokens.length))
          (numericPenalty cfg.penalties a b).1
          (shortPenaltyOf cfg.penalties
            (min a.core_tokens.length b.core_tokens.length))
          (hasSemanticOf cos (min a.core_tokens.length b.core_tokens.length))
        → hasSemanticOf cos (min a.core_tokens.length b.core_tokens.length)
            = true
        → sc.score = cfg.thresholds.t_high - 0.01
          ∧ "semantic_capped" ∈ sc.reasons) := by
  simp only [score_pair, hrel, bind, Except.bind, pure, Except.pure] at hok
  by_cases hsem : hasSemanticOf cos
      (min a.core_tokens.length b.core_tokens.length) = true
  · simp only [hsem, if_true] at hok
    by_cases hw0 : (cfg.scoring.token_overlap + cfg.scoring.fuzzy_similarity +
        if 0 < acronymScoreOfRel rel then cfg.scoring.acronym_signal else 0) = 0
    · rw [if_pos hw0] at hok
      exact absurd hok (by simp)
    · rw [if_neg hw0] at hok
      by_cases hcap : lexicalOnlyScore cfg.scoring (token_overlap_feature data a b)
            (fuzzy_feature fuzz data a b) (acronymScoreOfRel rel)
            (numericPenalty cfg.penalties a b).1
            (shortPenaltyOf cfg.penalties
              (a.core_tokens.length ⊓ b.core_tokens.length))
          < cfg.thresholds.t_high
          ∧ cfg.thresholds.t_high ≤ preCapScore cfg.scoring
            (token_overlap_feature data a b) (fuzzy_feature fuzz data a b)
            (acronymScoreOfRel rel)
            (semanticScoreOf cos (a.core_tokens.length ⊓ b.core_tokens.length))
            (numericPenalty cfg.penalties a b).1
            (shortPenaltyOf cfg.penalties
              (a.core_tokens.length ⊓ b.core_tokens.length)) true
      · rw [if_pos hcap] at hok
        injection hok with h
        subst h
        constructor
        · exact sub_lt_self _ (by norm_num)
        · intro _ _
          exact ⟨rfl, List.mem_append_right _ (by simp)⟩
      · rw [if_neg hcap] at hok
        injection hok with h
        subst h
        constructor
        · rcases not_and_or.mp hcap with h | h
          · exact absurd hlex h
          · exact not_le.mp h
        · intro hpre hsemtrue
          rw [hsem] at hpre
          exact absurd ⟨hlex, hpre⟩ hcap
  · have hsem' : hasSemanticOf cos
        (min a.core_tokens.length b.core_tokens.length) = false :=
      Bool.not_eq_true _ ▸ Bool.eq_false_iff.mpr hsem
    simp only [hsem', Bool.false_eq_true, if_false] at hok
    injection hok with h
    subst h
    constructor
    · show preCapScore cfg.scoring (token_overlap_feature data a b)
          (fuzzy_feature fuzz data a b) (acronymScoreOfRel rel)
          (semanticScoreOf cos (a.core_tokens.length ⊓ b.core_tokens.length))
          (numericPenalty cfg.penalties a b).1
          (shortPenaltyOf cfg.penalties
            (a.core_tokens.length ⊓ b.core_tokens.length)) false
        < cfg.thresholds.t_high
      rw [preCapScore_false_eq _ _ _ _ _ _ _ hw1 hw2 hw3]
      exact clamp_lt hlex hth
    · intro hpre hsemtrue
      exact absurd hsemtrue hsem

/-- Constant-zero fuzzy collaborator used by the C1 witness. -/
def c0Fuzz : Str → Str → ℚ := fun _ _ => 0

/-- The empty `NormalizedName` used by the C1 witness. -/
def c1WitName : NormalizedName := mkKeyedName [] []

/-- The exact `ScoredCandidate` that `score_pair` returns at the C1
witness input. -/
def c1WitnessResult : ScoredCandidate :=
  { b_id := 0
    score := 0
    features :=
      [("token_overlap", FeatureValue.num 0),
       ("fuzzy_similarity", FeatureValue.num 0),
       ("acronym_relation", FeatureValue.tag ("none")),
       ("acronym_score", FeatureValue.num 0),
       ("numeric_penalty", FeatureValue.num 0),
       ("short_name_penalty", FeatureValue.num (1/4)),
       ("semantic_similarity", FeatureValue.num 0),
       ("final_score", FeatureValue.num 0)]
    reasons := ["short_name_guardrail"] }

theorem c1WitName_overlap :
    token_overlap_feature exampleData c1WitName c1WitName = 0 := by
  have h4 : (effectiveCore exampleData c1WitName).1.dedup.length = 0 := by decide
  simp only [token_overlap_feature, h4]
  norm_num

theorem c1WitName_fuzzy :
    fuzzy_feature c0Fuzz exampleData c1WitName c1WitName = 0 := by
  simp only [fuzzy_feature, c0Fuzz]
  norm_num

theorem c1WitName_numeric :
    numericPenalty ({} : Penalties) c1WitName c1WitName = (0, []) := by
  have hn : c1WitName.numeric_tokens = [] := by decide
  simp [numericPenalty, hn]

theorem c1WitName_short :
    shortPenaltyOf ({} : Penalties)
      (min c1WitName.core_tokens.length c1WitName.core_tokens.length)
      = 1/4 := by
  rw [shortPenaltyOf, if_pos (by decide)]
  norm_num

/-- Evaluation of `score_pair` at the C1 witness input. -/
theorem c1_witness_eval :
    score_pair exampleData c0Fuzz c1WitName c1WitName {} (some (19/20))
      = Except.ok c1WitnessResult := by
  have hrel : acronym_relation exampleData c1WitName.acronym c1WitName.core_tokens
      c1WitName.acronym c1WitName.core_tokens = Except.ok ("none") := by decide
  have hsem : hasSemanticOf (some (19/20))
      (min c1WitName.core_tokens.length c1WitName.core_tokens.length)
      = false := by decide
  have hacr : acronymScoreOfRel ("none") = 0 := rfl
  have hsem0 : semanticScoreOf (some (19/20))
      (min c1WitName.core_tokens.length c1WitName.core_tokens.length) = 0 := by
    rw [semanticScoreOf, if_neg]
    rw [hsem]
    exact Bool.false_ne_true
  have hcond : (min c1WitName.core_tokens.length c1WitName.core_tokens.length
      ≤ 1) = True := eq_true (by decide)
  simp only [score_pair, hrel, bind, Except.bind, pure, Except.pure, hsem,
    Bool.false_eq_true, if_false, c1WitName_overlap, c1WitName_fuzzy,
    c1WitName_numeric, c1WitName_short, hsem0, hacr, hcond, if_true]
  have hreltags : (if ("none" : String) = "exact" ∨ ("none" : String) = "initialism"
      then (["acronym_match_strong"] : List String)
      else if ("none" : String) = "collision" then ["acronym_match_weak"]
      else []) = [] := by decide
  norm_num [preCapScore, c1WitnessResult, hreltags]

/-- Lexical-only value at the C1 witness input is below the default
`T_high`. -/
theorem c1_witness_lex :
    lexicalOnlyScore ({} : MatchConfig).scoring
        (token_overlap_feature exampleData c1WitName c1WitName)
        (fuzzy_feature c0Fuzz exampleData c1WitName c1WitName)
        (acronymScoreOfRel ("none"))
        (numericPenalty ({} : MatchConfig).penalties c1WitName c1WitName).1
        (shortPenaltyOf ({} : MatchConfig).penalties
          (min c1WitName.core_tokens.length c1WitName.core_tokens.length))
      < ({} : MatchConfig).thresholds.t_high := by
  rw [show ({} : MatchConfig).penalties = ({} : Penalties) from rfl,
    c1WitName_overlap, c1WitName_fuzzy, c1WitName_numeric, c1WitName_short,
    show acronymScoreOfRel ("none") = 0 from rfl]
  norm_num [lexicalOnlyScore,
    show ({} : MatchConfig).scoring.token_overlap = 0.35 from rfl,
    show ({} : MatchConfig).scoring.fuzzy_similarity = 0.30 from rfl,
    show ({} : MatchConfig).scoring.acronym_signal = 0.20 from rfl,
    show ({} : MatchConfig).thresholds.t_high = 0.92 from rfl]

/-- Witness for C1 at the default config and a concrete pair with a
supplied cosine. -/
theorem c1_semantic_cap_witness :
    c1WitnessResult.score < ({} : MatchConfig).thresholds.t_high
    ∧ (({} : MatchConfig).thresholds.t_high ≤ preCapScore
          ({} : MatchConfig).scoring
          (token_overlap_feature exampleData c1WitName c1WitName)
          (fuzzy_feature c0Fuzz exampleData c1WitName c1WitName)
          (acronymScoreOfRel ("none"))
          (semanticScoreOf (some (19/20))
            (min c1WitName.core_tokens.length c1WitName.core_tokens.length))
          (numericPenalty ({} : MatchConfig).penalties c1WitName c1WitName).1
          (shortPenaltyOf ({} : MatchConfig).penalties
            (min c1WitName.core_tokens.length c1WitName.core_tokens.length))
          (hasSemanticOf (some (19/20))
            (min c1WitName.core_tokens.length c1WitName.core_tokens.length))
        → hasSemanticOf (some (19/20))
            (min c1WitName.core_tokens.length c1WitName.core_tokens.length)
            = true
        → c1WitnessResult.score = ({} : MatchConfig).thresholds.t_high - 0.01
          ∧ "semantic_capped" ∈ c1WitnessResult.reasons) := by
  have hrel : acronym_relation exampleData c1WitName.acronym c1WitName.core_tokens
      c1WitName.acronym c1WitName.core_tokens = Except.ok ("none") := by decide
  exact c1_semantic_cap exampleData c0Fuzz c1WitName c1WitName {} (some (19/20))
    c1WitnessResult ("none")
    (by norm_num [show ({} : MatchConfig).scoring.token_overlap = 0.35 from rfl])
    (by norm_num [show ({} : MatchConfig).scoring.fuzzy_similarity = 0.30 from rfl])
    (by norm_num [show ({} : MatchConfig).scoring.acronym_signal = 0.20 from rfl])
    (by norm_num [show ({} : MatchConfig).thresholds.t_high = 0.92 from rfl])
    hrel c1_witness_eval c1_witness_lex

/-! ### Lemmas about the matcher pipeline (used by C2 and C10) -/

/-- A successful Python index means the index is in range. -/
theorem listGet_ok_lt {α : Type} {l : List α} {i : Nat} {x : α}
    (h : listGet l i = Except.ok x) : i < l.length := by
  unfold listGet at h
  cases hg : l.get? i with
  | none => rw [hg] at h; exact absurd h (by simp)
  | some y => exact List.get?_eq_some.mp hg |>.1

/-- Every candidate scored by `scoreStage` carries a valid B id. -/
theorem scoreStage_mem_valid {data : StaticData} {fuzz : Str → Str → ℚ}
    {cfg : MatchConfig} {embC : Str → Str → Option ℚ} {a : NormalizedName}
    {bs : List NormalizedName} :
    ∀ {cands : List Candidate} {scored : List ScoredCandidate},
      scoreStage data fuzz cfg embC a bs cands = Except.ok scored →
      ∀ sc ∈ scored, sc.b_id < bs.length := by
  intro cands
  induction cands with
  | nil =>
    intro scored h sc hm
    simp only [scoreStage] at h
    cases h
    exact absurd hm (by simp)
  | cons c cs ih =>
    intro scored h sc hm
    simp only [scoreStage, bind, Except.bind] at h
    cases hb : listGet bs c.b_id with
    | error e => rw [hb] at h; exact absurd h (by simp)
    | ok b =>
      simp only [hb] at h
      cases hsp : score_pair data fuzz a b cfg
          (if cfg.embedding.enabled then embC a.core_string b.core_string
           else none) with
      | error e => rw [hsp] at h; exact absurd h (by simp)
      | ok sp =>
        simp only [hsp] at h
        cases hrest : scoreStage data fuzz cfg embC a bs cs with
        | error e => rw [hrest] at h; exact absurd h (by simp)
        | ok scs =>
          simp only [hrest, pure, Except.pure, Except.ok.injEq] at h
          rw [← h] at hm
          rcases List.mem_cons.mp hm with hh | ht
          · rw [hh]
            exact listGet_ok_lt hb
          · exact ih hrest sc ht

/-- Members of the insertion result come from the new element or the
accumulator. -/
theorem insertByScoreDesc_mem {x sc : ScoredCandidate} :
    ∀ {l : List ScoredCandidate}, sc ∈ insertByScoreDesc x l →
      sc = x ∨ sc ∈ l := by
  intro l
  induction l with
  | nil =>
    intro h
    simp only [insertByScoreDesc] at h
    exact Or.inl (List.mem_singleton.mp h)
  | cons y ys ih =>
    intro h
    simp only [insertByScoreDesc] at h
    split_ifs at h
    · rcases List.mem_cons.mp h with hh | ht
      · exact Or.inl hh
      · exact Or.inr ht
    · rcases List.mem_cons.mp h with hh | ht
      · exact Or.inr (hh ▸ List.mem_cons_self y ys)
      · rcases ih ht with h1 | h2
        · exact Or.inl h1
        · exact Or.inr (List.mem_cons_of_mem _ h2)

/-- Members of the stable sort come from the input list. -/
theorem sortByScoreDesc_mem {sc : ScoredCandidate} {l : List ScoredCandidate}
    (h : sc ∈ sortByScoreDesc l) : sc ∈ l := by
  suffices haux : ∀ (l acc : List ScoredCandidate),
      sc ∈ l.foldl (fun acc x => insertByScoreDesc x acc) acc →
      sc ∈ acc ∨ sc ∈ l by
    rcases haux l [] h with hin | hin
    · exact absurd hin (by simp)
    · exact hin
  intro l
  induction l with
  | nil => intro acc h; exact Or.inl h
  | cons y ys ih =>
    intro acc h
    rw [List.foldl_cons] at h
    rcases ih (insertByScoreDesc y acc) h with hin | hin
    · rcases insertByScoreDesc_mem hin with h1 | h2
      · exact Or.inr (h1 ▸ List.mem_cons_self y ys)
      · exact Or.inl h2
    · exact Or.inr (List.mem_cons_of_mem _ hin)

/-- The call-site keyword binding always fails: `strip_categories` is
not among `arbitrate`'s parameters. -/
theorem callArbitrate_matcher_kw_fails (cfg : LLMConfig)
    (provider : Option LLMProvider) (parse : ParseOracle) (st : ArbiterState)
    (a b : NormalizedName) (scored : ScoredCandidate) (ru : Option ℚ) :
    callArbitrate matcherCallKeywords cfg provider parse st a b scored ru
      = Except.error PyErr.typeError := by
  unfold callArbitrate
  rw [if_neg]
  decide

/-- If any candidate in the list is arbiter-eligible (and all ids are
valid), the arbitration loop raises `TypeError` at the first eligible
one. -/
theorem arbLoop_error_of_any_eligible (cfg : MatchConfig)
    (prov : Option LLMProvider) (parse : ParseOracle) (a : NormalizedName)
    (bs : List NormalizedName) (sc_runner : Option ℚ) :
    ∀ (l : List ScoredCandidate) (st : ArbiterState),
      (∀ sc ∈ l, sc.b_id < bs.length) →
      (l.any (fun sc =>
        match bs.get? sc.b_id with
        | some bc => is_eligible cfg.llm st.global_calls a bc sc sc_runner
        | none => false)) = true →
      arbLoop cfg prov parse a bs sc_runner st l
        = Except.error PyErr.typeError := by
  intro l
  induction l with
  | nil => intro st _ hany; exact absurd hany (by simp)
  | cons sc rst ih =>
    intro st hvalid hany
    have hlt : sc.b_id < bs.length := hvalid sc (List.mem_cons_self sc rst)
    obtain ⟨bc, hbc⟩ : ∃ bc, bs.get? sc.b_id = some bc :=
      ⟨bs.get ⟨sc.b_id, hlt⟩, List.get?_eq_get hlt⟩
    have hget : listGet bs sc.b_id = Except.ok bc := by
      unfold listGet
      rw [hbc]
    simp only [arbLoop, bind, Except.bind, hget]
    simp only [List.any_cons, hbc, Bool.or_eq_true] at hany
    by_cases helig : is_eligible cfg.llm st.global_calls a bc sc sc_runner = true
    · rw [if_pos helig, callArbitrate_matcher_kw_fails]
    · rw [if_neg helig]
      refine ih st (fun x hx => hvalid x (List.mem_cons_of_mem _ hx)) ?_
      rcases hany with h1 | h2
      · exact absurd h1 helig
      · exact h2

/-- The arbitration loop never returns a successful override: the only
path that could produce one first calls the arbiter with the bad
keyword, which raises. -/
theorem arbLoop_ok_none (cfg : MatchConfig) (prov : Option LLMProvider)
    (parse : ParseOracle) (a : NormalizedName) (bs : List NormalizedName)
    (sc_runner : Option ℚ) :
    ∀ (l : List ScoredCandidate) (st : ArbiterState)
      (ov : Option (String × ScoredCandidate × NormalizedName × ArbiterState)),
      arbLoop cfg prov parse a bs sc_runner st l = Except.ok ov →
      ov = none := by
  intro l
  induction l with
  | nil =>
    intro st ov h
    simp only [arbLoop] at h
    injection h with h1
    exact h1.symm
  | cons sc rst ih =>
    intro st ov h
    simp only [arbLoop, bind, Except.bind] at h
    cases hb : listGet bs sc.b_id with
    | error e => rw [hb] at h; exact absurd h (by simp)
    | ok bc =>
      simp only [hb] at h
      by_cases helig : is_eligible cfg.llm st.global_calls a bc sc sc_runner = true
      · rw [if_pos helig, callArbitrate_matcher_kw_fails] at h
        exact absurd h (by simp)
      · rw [if_neg helig] at h
        exact ih st ov h

/-- Field discipline of the result assembled by `finishStage`: `b_id`
and `b_name` are populated only on a `MATCH` decision, and a `REVIEW`
result keeps the best candidate's score, runner-up score and margin with
the candidates only in the debug payload. -/
theorem finishStage_ok_fields (cfg : MatchConfig)
    (provider : Option LLMProvider) (parse : ParseOracle) (st : ArbiterState)
    (a : NormalizedName) (bs : List NormalizedName) (a_id : Nat) (cc : Nat)
    (best : ScoredCandidate) (rest : List ScoredCandidate) (r : MatchResult)
    (h : finishStage cfg provider parse st a bs a_id cc best rest
      = Except.ok r) :
    (¬r.decision = "MATCH" → r.b_id = none ∧ r.b_name = none)
    ∧ (r.decision = "REVIEW" →
        r.b_id = none ∧ r.b_name = none ∧ r.used_llm = false
        ∧ r.score = best.score
        ∧ r.runner_up_score = rest.head?.map (fun sc => sc.score)
        ∧ r.margin = (rest.head?.map (fun sc => sc.score)).map
            (fun ru => best.score - ru)
        ∧ r.debug.top_candidates = ((best :: rest).take 5).map
            (fun sc => (sc.b_id, sc.score, sc.reasons))) := by
  simp only [finishStage, bind, Except.bind] at h
  cases hb : listGet bs best.b_id with
  | error e => rw [hb] at h; exact absurd h (by simp)
  | ok bb =>
    simp only [hb] at h
    by_cases hcond : decideBand cfg.thresholds best.score
        (rest.head?.map (fun sc => sc.score))
        ((rest.head?.map (fun sc => sc.score)).map (fun ru => best.score - ru))
        = "REVIEW" ∧ cfg.llm.enabled = true
    · rw [if_pos hcond] at h
      cases hl : arbLoop cfg provider parse a bs
          ((((best :: rest).take cfg.llm.top_k).get? 1).map (fun sc => sc.score))
          st ((best :: rest).take cfg.llm.top_k) with
      | error e => rw [hl] at h; exact absurd h (by simp)
      | ok ov =>
        have hov : ov = none := arbLoop_ok_none _ _ _ _ _ _ _ _ _ hl
        subst hov
        simp only [hl, pure, Except.pure, Except.ok.injEq] at h
        subst h
        constructor
        · intro hne
          exact ⟨if_neg hne, if_neg hne⟩
        · intro hrev
          have hrev' : decideBand cfg.thresholds best.score
              (rest.head?.map (fun sc => sc.score))
              ((rest.head?.map (fun sc => sc.score)).map
                (fun ru => best.score - ru)) = "REVIEW" := hrev
          have hnm : ¬decideBand cfg.thresholds best.score
              (rest.head?.map (fun sc => sc.score))
              ((rest.head?.map (fun sc => sc.score)).map
                (fun ru => best.score - ru)) = "MATCH" := by
            intro hM
            rw [hM] at hrev'
            exact absurd hrev' (by decide)
          exact ⟨if_neg hnm, if_neg hnm, rfl, rfl, rfl, rfl, rfl⟩
    · rw [if_neg hcond] at h
      simp only [pure, Except.pure, Except.ok.injEq] at h
      subst h
      constructor
      · intro hne
        exact ⟨if_neg hne, if_neg hne⟩
      · intro hrev
        have hrev' : decideBand cfg.thresholds best.score
            (rest.head?.map (fun sc => sc.score))
            ((rest.head?.map (fun sc => sc.score)).map
              (fun ru => best.score - ru)) = "REVIEW" := hrev
        have hnm : ¬decideBand cfg.thresholds best.score
            (rest.head?.map (fun sc => sc.score))
            ((rest.head?.map (fun sc => sc.score)).map
              (fun ru => best.score - ru)) = "MATCH" := by
          intro hM
          rw [hM] at hrev'
          exact absurd hrev' (by decide)
        exact ⟨if_neg hnm, if_neg hnm, rfl, rfl, rfl, rfl, rfl⟩

/-- Witness for C7: the missing-provider case applied at a concrete
fresh state. -/
theorem c7_arbitrate_failure_modes_witness :
    arbitrate { enabled := true } none (fun _ => none) {}
        (mkKeyedName [("apple".toList), ("inc".toList)] [])
        (mkKeyedName [("apple".toList), ("corp".toList)] [])
        { b_id := 1, score := 0 } none
      = ("REVIEW", { decision := "UNSURE", confidence := 0,
                     reason := "no_provider" }, {}) :=
  (c7_arbitrate_failure_modes { enabled := true } none (fun _ => none) {}
      (mkKeyedName [("apple".toList), ("inc".toList)] [])
      (mkKeyedName [("apple".toList), ("corp".toList)] [])
      { b_id := 1, score := 0 } none (by decide)).1 rfl

/-! ### Concrete matcher run shared by the C2 and C10 witnesses -/

/-- Config with a lowered `t_low` (so the concrete pair lands in the
REVIEW band) and the arbiter enabled. -/
def c2Cfg : MatchConfig :=
  { thresholds := { t_low := 0.5 }
    llm := { enabled := true } }

/-- The same thresholds with the arbiter left disabled. -/
def cfgC10 : MatchConfig :=
  { thresholds := { t_low := 0.5 } }

/-- Constant fuzzy collaborator returning a `WRatio` of 80. -/
def fz80 : Str → Str → ℚ := fun _ _ => 80

/-- Normalized query name of the shared witness run. -/
def c2aN : NormalizedName := normalize emptyData c2Cfg ("alpha gamma".toList)

/-- Normalized reference name of the shared witness run. -/
def c2bN : NormalizedName := normalize emptyData c2Cfg ("alpha beta".toList)

/-- The single candidate retrieved in the shared witness run (the two
names share only their `k_first` key). -/
def c2Cand : Candidate := { b_id := 0, sources := ["k_first"] }

def c2Cands : List Candidate := [c2Cand]

/-- The scored candidate of the shared witness run:
`(0.35·(1/2) + 0.30·(4/5)) / 0.65 = 83/130`. -/
def c2Sc : ScoredCandidate :=
  { b_id := 0
    score := 83/130
    features :=
      [("token_overlap", FeatureValue.num (1/2)),
       ("fuzzy_similarity", FeatureValue.num (4/5)),
       ("acronym_relation", FeatureValue.tag ("none")),
       ("acronym_score", FeatureValue.num 0),
       ("numeric_penalty", FeatureValue.num 0),
       ("short_name_penalty", FeatureValue.num 0),
       ("semantic_similarity", FeatureValue.num 0),
       ("final_score", FeatureValue.num (83/130))]
    reasons := [] }

theorem c2_overlap : token_overlap_feature emptyData c2aN c2bN = 1/2 := by
  simp only [token_overlap_feature]
  rw [show ((effectiveCore emptyData c2aN).1.dedup.filter
      (fun t => (effectiveCore emptyData c2bN).1.dedup.contains t)).length = 1
    from by decide]
  rw [show min (effectiveCore emptyData c2aN).1.dedup.length
      (effectiveCore emptyData c2bN).1.dedup.length = 2 from by decide]
  norm_num

theorem c2_fuzzy : fuzzy_feature fz80 emptyData c2aN c2bN = 4/5 := by
  simp only [fuzzy_feature, fz80]
  norm_num

theorem c2_numeric :
    numericPenalty ({} : Penalties) c2aN c2bN = (0, []) := by
  have hna : c2aN.numeric_tokens = [] := by decide
  have hnb : c2bN.numeric_tokens = [] := by decide
  simp [numericPenalty, hna, hnb]

theorem c2_short :
    shortPenaltyOf ({} : Penalties)
      (min c2aN.core_tokens.length c2bN.core_tokens.length) = 0 := by
  rw [shortPenaltyOf, if_neg (by decide)]

/-- Evaluation of `score_pair` at the shared witness pair, for any
config with the default weights and penalties. -/
theorem c2_score_eval (cfg : MatchConfig)
    (hw : cfg.scoring = ({} : ScoringWeights))
    (hp : cfg.penalties = ({} : Penalties)) :
    score_pair emptyData fz80 c2aN c2bN cfg none = Except.ok c2Sc := by
  have hrel : acronym_relation emptyData c2aN.acronym c2aN.core_tokens
      c2bN.acronym c2bN.core_tokens = Except.ok ("none") := by decide
  have hsem : hasSemanticOf none
      (min c2aN.core_tokens.length c2bN.core_tokens.length) = false := by decide
  have hacr : acronymScoreOfRel ("none") = 0 := rfl
  have hsem0 : semanticScoreOf none
      (min c2aN.core_tokens.length c2bN.core_tokens.length) = 0 := by
    rw [semanticScoreOf, if_neg]
    rw [hsem]
    exact Bool.false_ne_true
  have hcond : (min c2aN.core_tokens.length c2bN.core_tokens.length ≤ 1)
      = False := eq_false (by decide)
  simp only [score_pair, hrel, bind, Except.bind, pure, Except.pure, hw, hp,
    hsem, Bool.false_eq_true, if_false, c2_overlap, c2_fuzzy, c2_numeric,
    c2_short, hsem0, hacr, hcond]
  have hreltags : (if ("none" : String) = "exact" ∨ ("none" : String) = "initialism"
      then (["acronym_match_strong"] : List String)
      else if ("none" : String) = "collision" then ["acronym_match_weak"]
      else []) = [] := by decide
  norm_num [preCapScore, c2Sc, hreltags,
    show ({} : ScoringWeights).token_overlap = 0.35 from rfl,
    show ({} : ScoringWeights).fuzzy_similarity = 0.30 from rfl,
    show ({} : ScoringWeights).acronym_signal = 0.20 from rfl]

/-- Evaluation of the scoring stage at the shared witness run, for any
config with default weights and penalties, embeddings disabled, and the
same normalization behaviour. -/
theorem c2_scoreStage_eval (cfg : MatchConfig)
    (hw : cfg.scoring = ({} : ScoringWeights))
    (hp : cfg.penalties = ({} : Penalties))
    (hemb : cfg.embedding.enabled = false)
    (han : normalize emptyData cfg ("alpha gamma".toList) = c2aN)
    (hbn : List.map (normalize emptyData cfg) [("alpha beta".toList)] = [c2bN]) :
    scoreStage emptyData fz80 cfg (fun _ _ => none)
        (normalize emptyData cfg ("alpha gamma".toList))
        (List.map (normalize emptyData cfg) [("alpha beta".toList)]) c2Cands
      = Except.ok [c2Sc] := by
  rw [han, hbn]
  have hg : listGet [c2bN] c2Cand.b_id = Except.ok c2bN := by decide
  simp only [c2Cands, scoreStage, bind, Except.bind, hg, hemb,
    Bool.false_eq_true, if_false, c2_score_eval cfg hw hp, pure, Except.pure]
  rfl

/-- The concrete run's decision band is REVIEW. -/
theorem c2_band :
    decideBand ({ t_low := 0.5 } : Thresholds) c2Sc.score none none
      = "REVIEW" := by
  have hs : c2Sc.score = 83/130 := rfl
  have h1 : ¬(c2Sc.score ≤ ({ t_low := 0.5 } : Thresholds).t_low) := by
    rw [hs, show ({ t_low := 0.5 } : Thresholds).t_low = 0.5 from rfl]
    norm_num
  have h2 : ¬(({ t_low := 0.5 } : Thresholds).t_high ≤ c2Sc.score
      ∧ marginOk ({ t_low := 0.5 } : Thresholds).margin none) := by
    rintro ⟨h, -⟩
    rw [hs, show ({ t_low := 0.5 } : Thresholds).t_high = 0.92 from rfl] at h
    norm_num at h
  rw [decideBand, if_neg h1, if_neg h2]

/-- C2: for every query in which the band decision is REVIEW, the
arbiter is enabled, and at least one of the top-K scored candidates
passes the eligibility gates, `Matcher.match_one` raises `TypeError`
instead of returning a `MatchResult` — it calls `LLMArbiter.arbitrate`
with a `strip_categories` keyword argument that the method's signature
does not accept.  The stage hypotheses name the retrieval, scoring and
sorting outcomes of the run. -/
theorem c2_arbitration_raises_typeerror
    (data : StaticData) (fuzz : Str → Str → ℚ) (cfg : MatchConfig)
    (embQuery : Str → List Nat) (embCos : Str → Str → Option ℚ)
    (provider : Option LLMProvider) (parse : ParseOracle) (st : ArbiterState)
    (b_names_raw : List Str) (a_name : Str) (a_id : Nat)
    (cands : List Candidate) (scored : List ScoredCandidate)
    (best : ScoredCandidate) (rest : List ScoredCandidate)
    (hllm : cfg.llm.enabled = true)
    (hretr : retrieve_candidates cfg.candidates
        (buildIndex cfg.candidates (b_names_raw.map (normalize data cfg)))
        (normalize data cfg a_name)
        (if cfg.embedding.enabled then
          some (embQuery (normalize data cfg a_name).core_string) else none)
      = Except.ok cands)
    (hcands : ¬cands = [])
    (hscore : scoreStage data fuzz cfg embCos (normalize data cfg a_name)
        (b_names_raw.map (normalize data cfg)) cands = Except.ok scored)
    (hsort : sortByScoreDesc scored = best :: rest)
    (hdec : decideBand cfg.thresholds best.score
        (rest.head?.map (fun sc => sc.score))
        ((rest.head?.map (fun sc => sc.score)).map (fun ru => best.score - ru))
      = "REVIEW")
    (helig : (((best :: rest).take cfg.llm.top_k).any (fun sc =>
        match (b_names_raw.map (normalize data cfg)).get? sc.b_id with
        | some bc => is_eligible cfg.llm st.global_calls
            (normalize data cfg a_name) bc sc
            ((((best :: rest).take cfg.llm.top_k).get? 1).map
              (fun x => x.score))
        | none => false)) = true) :
    matchOne data fuzz cfg embQuery embCos provider parse st
        b_names_raw a_name a_id
      = Except.error PyErr.typeError := by
  have hvalid : ∀ sc ∈ (best :: rest).take cfg.llm.top_k,
      sc.b_id < (b_names_raw.map (normalize data cfg)).length := by
    intro sc hm
    have h1 : sc ∈ best :: rest := List.take_subset _ _ hm
    rw [← hsort] at h1
    exact scoreStage_mem_valid hscore sc (sortByScoreDesc_mem h1)
  have hvb : best.b_id < (b_names_raw.map (normalize data cfg)).length := by
    have h1 : best ∈ best :: rest := List.mem_cons_self _ _
    rw [← hsort] at h1
    exact scoreStage_mem_valid hscore best (sortByScoreDesc_mem h1)
  obtain ⟨bb, hbb⟩ :
      ∃ bb, (b_names_raw.map (normalize data cfg)).get? best.b_id = some bb :=
    ⟨_, List.get?_eq_get hvb⟩
  have hgb : listGet (b_names_raw.map (normalize data cfg)) best.b_id
      = Except.ok bb := by
    unfold listGet
    rw [hbb]
  have harb := arbLoop_error_of_any_eligible cfg provider parse
    (normalize data cfg a_name) (b_names_raw.map (normalize data cfg))
    ((((best :: rest).take cfg.llm.top_k).get? 1).map (fun x => x.score))
    ((best :: rest).take cfg.llm.top_k) st hvalid helig
  simp only [matchOne, bind, Except.bind, hretr]
  rw [if_neg hcands]
  simp only [hscore, hsort, finishStage, bind, Except.bind, hgb, hdec, hllm]
  rw [if_pos ⟨trivial, trivial⟩]
  rw [harb]

/-- Witness for C2: the shared concrete run (single reference name
`alpha beta`, query `alpha gamma`, arbiter enabled) raises
`TypeError`. -/
theorem c2_arbitration_raises_typeerror_witness :
    matchOne emptyData fz80 c2Cfg (fun _ => []) (fun _ _ => none) none
        (fun _ => none) {} [("alpha beta".toList)] ("alpha gamma".toList) 0
      = Except.error PyErr.typeError :=
  c2_arbitration_raises_typeerror emptyData fz80 c2Cfg (fun _ => [])
    (fun _ _ => none) none (fun _ => none) {} [("alpha beta".toList)]
    ("alpha gamma".toList) 0 c2Cands [c2Sc] c2Sc [] rfl (by decide)
    (by decide) (c2_scoreStage_eval c2Cfg rfl rfl rfl rfl (by decide)) rfl
    c2_band (by decide)

/-- C10: in every `MatchResult` returned by `Matcher.match_one`, `b_id`
and `b_name` are null unless the final decision is MATCH; a REVIEW
result carries the best candidate's score, runner-up score and margin
(as produced by the retrieval, scoring and sorting stages) but exposes
no `b_id` or `b_name` — the candidates appear only in the debug
payload. -/
theorem c10_result_b_fields
    (data : StaticData) (fuzz : Str → Str → ℚ) (cfg : MatchConfig)
    (embQuery : Str → List Nat) (embCos : Str → Str → Option ℚ)
    (provider : Option LLMProvider) (parse : ParseOracle) (st : ArbiterState)
    (b_names_raw : List Str) (a_name : Str) (a_id : Nat) (r : MatchResult)
    (hok : matchOne data fuzz cfg embQuery embCos provider parse st
        b_names_raw a_name a_id = Except.ok r) :
    (¬r.decision = "MATCH" → r.b_id = none ∧ r.b_name = none)
    ∧ (r.decision = "REVIEW" →
        r.b_id = none ∧ r.b_name = none ∧ r.used_llm = false
        ∧ ∃ cands scored best rest,
            retrieve_candidates cfg.candidates
                (buildIndex cfg.candidates (b_names_raw.map (normalize data cfg)))
                (normalize data cfg a_name)
                (if cfg.embedding.enabled then
                  some (embQuery (normalize data cfg a_name).core_string)
                 else none)
              = Except.ok cands
            ∧ scoreStage data fuzz cfg embCos (normalize data cfg a_name)
                (b_names_raw.map (normalize data cfg)) cands = Except.ok scored
            ∧ sortByScoreDesc scored = best :: rest
            ∧ r.score = best.score
            ∧ r.runner_up_score = rest.head?.map (fun sc => sc.score)
            ∧ r.margin = (rest.head?.map (fun sc => sc.score)).map
                (fun ru => best.score - ru)
            ∧ r.debug.top_candidates = ((best :: rest).take 5).map
                (fun sc => (sc.b_id, sc.score, sc.reasons))) := by
  simp only [matchOne, bind, Except.bind] at hok
  cases hr : retrieve_candidates cfg.candidates
      (buildIndex cfg.candidates (b_names_raw.map (normalize data cfg)))
      (normalize data cfg a_name)
      (if cfg.embedding.enabled then
        some (embQuery (normalize data cfg a_name).core_string) else none) with
  | error e => rw [hr] at hok; exact absurd hok (by simp)
  | ok cands =>
    simp only [hr] at hok
    by_cases hc : cands = []
    · rw [if_pos hc] at hok
      simp only [pure, Except.pure, Except.ok.injEq] at hok
      subst hok
      constructor
      · intro _
        exact ⟨rfl, rfl⟩
      · intro hrev
        have hrev' : ("NO_MATCH" : String) = "REVIEW" := hrev
        exact absurd hrev' (by decide)
    · rw [if_neg hc] at hok
      cases hs : scoreStage data fuzz cfg embCos (normalize data cfg a_name)
          (b_names_raw.map (normalize data cfg)) cands with
      | error e => rw [hs] at hok; exact absurd hok (by simp)
      | ok scored =>
        simp only [hs] at hok
        cases hsort : sortByScoreDesc scored with
        | nil => rw [hsort] at hok; exact absurd hok (by simp)
        | cons best rest =>
          simp only [hsort] at hok
          have hf := finishStage_ok_fields _ _ _ _ _ _ _ _ _ _ _ hok
          refine ⟨hf.1, fun hrev => ?_⟩
          exact ⟨(hf.2 hrev).1, (hf.2 hrev).2.1, (hf.2 hrev).2.2.1,
            cands, scored, best, rest, rfl, hs, hsort, (hf.2 hrev).2.2.2⟩

/-- The `MatchResult` of the concrete arbiter-disabled run used by the
C10 witness. -/
def c10Res : MatchResult :=
  { a_id := 3
    a_name := ("alpha gamma".toList)
    b_id := none
    b_name := none
    decision := "REVIEW"
    score := 83/130
    runner_up_score := none
    margin := none
    used_llm := false
    reasons := []
    debug := { top_candidates := [(0, 83/130, [])]
               warnings := []
               candidate_count := 1 } }

/-- Full evaluation of `match_one` on the concrete arbiter-disabled
run. -/
theorem c10_matchOne_eval :
    matchOne emptyData fz80 cfgC10 (fun _ => []) (fun _ _ => none) none
        (fun _ => none) {} [("alpha beta".toList)] ("alpha gamma".toList) 3
      = Except.ok c10Res := by
  have hretr : retrieve_candidates cfgC10.candidates
      (buildIndex cfgC10.candidates
        (List.map (normalize emptyData cfgC10) [("alpha beta".toList)]))
      (normalize emptyData cfgC10 ("alpha gamma".toList))
      (if cfgC10.embedding.enabled then
        some ((fun _ => ([] : List Nat))
          (normalize emptyData cfgC10 ("alpha gamma".toList)).core_string)
       else none)
    = Except.ok c2Cands := by decide
  have hscore := c2_scoreStage_eval cfgC10 rfl rfl rfl (by decide) (by decide)
  have hsrt : sortByScoreDesc [c2Sc] = [c2Sc] := rfl
  have hgb : listGet (List.map (normalize emptyData cfgC10)
      [("alpha beta".toList)]) c2Sc.b_id = Except.ok c2bN := by decide
  have hband : decideBand cfgC10.thresholds c2Sc.score none none
      = "REVIEW" := c2_band
  have hrm : (("REVIEW" : String) = "MATCH") = False := eq_false (by decide)
  simp only [matchOne, bind, Except.bind, hretr]
  rw [if_neg (show ¬(c2Cands = []) from by decide)]
  simp only [hscore, hsrt, finishStage, bind, Except.bind, hgb,
    List.head?_nil, Option.map_none']
  rw [if_neg (show ¬(decideBand cfgC10.thresholds c2Sc.score none none
      = "REVIEW" ∧ cfgC10.llm.enabled = true)
    from fun hand => absurd hand.2 (by decide))]
  simp only [pure, Except.pure, hband, hrm, if_false]
  rfl

/-- Witness for C10: the concrete arbiter-disabled run returns a REVIEW
result with no `b_id`/`b_name`, and its stage values are exhibited. -/
theorem c10_result_b_fields_witness :
    (¬c10Res.decision = "MATCH" → c10Res.b_id = none ∧ c10Res.b_name = none)
    ∧ (c10Res.decision = "REVIEW" →
        c10Res.b_id = none ∧ c10Res.b_name = none ∧ c10Res.used_llm = false
        ∧ ∃ cands scored best rest,
            retrieve_candidates cfgC10.candidates
                (buildIndex cfgC10.candidates
                  (([("alpha beta".toList)] : List Str).map
                    (normalize emptyData cfgC10)))
                (normalize emptyData cfgC10 ("alpha gamma".toList))
                (if cfgC10.embedding.enabled then
                  some ((fun _ => ([] : List Nat))
                    (normalize emptyData cfgC10
                      ("alpha gamma".toList)).core_string)
                 else none)
              = Except.ok cands
            ∧ scoreStage emptyData fz80 cfgC10 (fun _ _ => none)
                (normalize emptyData cfgC10 ("alpha gamma".toList))
                (([("alpha beta".toList)] : List Str).map
                  (normalize emptyData cfgC10)) cands = Except.ok scored
            ∧ sortByScoreDesc scored = best :: rest
            ∧ c10Res.score = best.score
            ∧ c10Res.runner_up_score = rest.head?.map (fun sc => sc.score)
            ∧ c10Res.margin = (rest.head?.map (fun sc => sc.score)).map
                (fun ru => best.score - ru)
            ∧ c10Res.debug.top_candidates = ((best :: rest).take 5).map
                (fun sc => (sc.b_id, sc.score, sc.reasons))) :=
  c10_result_b_fields emptyData fz80 cfgC10 (fun _ => []) (fun _ _ => none)
    none (fun _ => none) {} [("alpha beta".toList)] ("alpha gamma".toList) 3
    c10Res c10_matchOne_eval

/-! ### Idempotence of normalization (claim C9)

The development shows that re-normalizing `core_string` reproduces
`core_tokens`, for static data whose word lists have the shape of the
shipped files: replacement keys contain a symbol (neither word character
nor space), replacement values are casefold-invariant, alias keys
contain punctuation, and alias values are nonempty casefold-invariant
word strings. -/

/-- `Char.ofNat` round-trip below the surrogate range. -/
theorem charOfNat_toNat {n : Nat} (h : n < 55296) :
    (Char.ofNat n).toNat = n := by
  unfold Char.ofNat
  rw [dif_pos (Or.inl h)]
  simp [Char.ofNatAux, Char.toNat, UInt32.toNat]

/-- Character order reflects the order of code points. -/
theorem char_le_iff {a b : Char} : a ≤ b ↔ a.toNat ≤ b.toNat := by
  rw [Char.le_def, UInt32.le_def]
  rfl

/-- The casefold model is idempotent. -/
theorem foldChar_idem (c : Char) : foldChar (foldChar c) = foldChar c := by
  by_cases h : 'A' ≤ c ∧ c ≤ 'Z'
  · have h65 : 65 ≤ c.toNat := char_le_iff.mp h.1
    have h90 : c.toNat ≤ 90 := char_le_iff.mp h.2
    have hfc : foldChar c = Char.ofNat (c.toNat + 32) := by
      rw [foldChar, if_pos h]
    have htn : (foldChar c).toNat = c.toNat + 32 := by
      rw [hfc, charOfNat_toNat (by omega)]
    rw [foldChar, if_neg]
    intro hup
    have hu1 := char_le_iff.mp hup.1
    have hu2 := char_le_iff.mp hup.2
    have hZ : ('Z').toNat = 90 := by decide
    have hA : ('A').toNat = 65 := by decide
    omega
  · have hfc : foldChar c = c := by rw [foldChar, if_neg h]
    rw [hfc, hfc]

/-- A word character is not a whitespace character. -/
theorem isWordChar_not_space {c : Char} (h : isWordChar c = true) :
    isSpaceChar c = false := by
  cases hx : isSpaceChar c with
  | false => rfl
  | true =>
    simp only [isSpaceChar, decide_eq_true_eq] at hx
    rcases hx with h1 | h1 | h1 | h1 <;> subst h1 <;> exact absurd h (by decide)

/-- Membership transport along `List.isPrefixOf`. -/
theorem mem_of_isPrefixOf {α : Type} [DecidableEq α] :
    ∀ {l s : List α}, l.isPrefixOf s = true → ∀ x ∈ l, x ∈ s := by
  intro l
  induction l with
  | nil => intro s _ x hx; exact absurd hx (by simp)
  | cons a as ih =>
    intro s hp x hx
    cases s with
    | nil => exact absurd hp (by simp [List.isPrefixOf])
    | cons b bs =>
      simp only [List.isPrefixOf, Bool.and_eq_true, beq_iff_eq] at hp
      rcases List.mem_cons.mp hx with h1 | h1
      · rw [h1, hp.1]
        exact List.mem_cons_self _ _
      · exact List.mem_cons_of_mem _ (ih hp.2 x h1)

/-- Characters of `pyReplaceAux` come from the input or the inserted
string. -/
theorem pyReplaceAux_chars {old new : Str} :
    ∀ (fuel : Nat) (s : Str) (ch : Char), ch ∈ pyReplaceAux old new fuel s →
      ch ∈ s ∨ ch ∈ new := by
  intro fuel
  induction fuel with
  | zero => intro s ch h; exact Or.inl h
  | succ n ih =>
    intro s ch h
    cases s with
    | nil =>
      simp only [pyReplaceAux] at h
      exact absurd h (by simp)
    | cons c rest =>
      simp only [pyReplaceAux] at h
      by_cases hp : old.isPrefixOf (c :: rest) = true
      · rw [if_pos hp] at h
        rcases List.mem_append.mp h with h1 | h1
        · exact Or.inr h1
        · rcases ih _ ch h1 with h2 | h2
          · exact Or.inl (List.drop_subset _ _ h2)
          · exact Or.inr h2
      · rw [if_neg hp] at h
        rcases List.mem_cons.mp h with h1 | h1
        · exact Or.inl (h1 ▸ List.mem_cons_self _ _)
        · rcases ih rest ch h1 with h2 | h2
          · exact Or.inl (List.mem_cons_of_mem _ h2)
          · exact Or.inr h2

/-- Characters of `pyReplace` come from the input or the inserted
string. -/
theorem pyReplace_chars {s old new : Str} {ch : Char}
    (h : ch ∈ pyReplace s old new) : ch ∈ s ∨ ch ∈ new := by
  unfold pyReplace at h
  by_cases ho : old = []
  · rw [if_pos ho] at h
    rcases List.mem_append.mp h with h1 | h1
    · exact Or.inr h1
    · rcases List.mem_flatMap.mp h1 with ⟨c, hc, hm⟩
      rcases List.mem_cons.mp hm with h2 | h2
      · exact Or.inl (h2 ▸ hc)
      · exact Or.inr h2
  · rw [if_neg ho] at h
    exact pyReplaceAux_chars s.length s ch h

/-- Characters after the replacement pass satisfy any predicate holding
on the input and on all replacement values. -/
theorem applyReplacements_chars (P : Char → Prop) :
    ∀ (reps : List (Str × Str)), (∀ rep ∈ reps, ∀ ch ∈ rep.2, P ch) →
      ∀ (s : Str), (∀ ch ∈ s, P ch) →
      ∀ ch ∈ applyReplacements reps s, P ch := by
  intro reps
  induction reps with
  | nil => intro _ s hs ch h; exact hs ch h
  | cons r rs ih =>
    intro hreps s hs ch h
    rw [applyReplacements, List.foldl_cons] at h
    exact ih (fun rep hm => hreps rep (List.mem_cons_of_mem _ hm))
      (pyReplace s r.1 r.2)
      (fun c hc => (pyReplace_chars hc).elim (hs c)
        (hreps r (List.mem_cons_self _ _) c))
      ch h

/-- `pyReplaceAux` is the identity when the pattern contains a
character foreign to the scanned string. -/
theorem pyReplaceAux_id {old new : Str} {b : Char} (hb : b ∈ old)
    (P : Char → Prop) (hbP : ¬P b) :
    ∀ (fuel : Nat) (s : Str), (∀ ch ∈ s, P ch) →
      pyReplaceAux old new fuel s = s := by
  intro fuel
  induction fuel with
  | zero => intro s _; rfl
  | succ n ih =>
    intro s hs
    cases s with
    | nil => rfl
    | cons c rest =>
      have hnp : ¬(old.isPrefixOf (c :: rest) = true) := fun hp =>
        hbP (hs b (mem_of_isPrefixOf hp b hb))
      simp only [pyReplaceAux]
      rw [if_neg hnp, ih rest (fun ch hc => hs ch (List.mem_cons_of_mem _ hc))]

/-- `pyReplace` is the identity when the pattern contains a character
foreign to the string. -/
theorem pyReplace_id {s old new : Str} (P : Char → Prop) {b : Char}
    (hb : b ∈ old) (hbP : ¬P b) (hs : ∀ ch ∈ s, P ch) :
    pyReplace s old new = s := by
  unfold pyReplace
  rw [if_neg (by rintro rfl; exact absurd hb (by simp))]
  exact pyReplaceAux_id hb P hbP s.length s hs

/-- The replacement pass is the identity when every key contains a
character foreign to the string. -/
theorem applyReplacements_id (P : Char → Prop) :
    ∀ (reps : List (Str × Str)), (∀ rep ∈ reps, ∃ b ∈ rep.1, ¬P b) →
      ∀ (s : Str), (∀ ch ∈ s, P ch) →
      applyReplacements reps s = s := by
  intro reps
  induction reps with
  | nil => intro _ s _; rfl
  | cons r rs ih =>
    intro hkeys s hs
    rw [applyReplacements, List.foldl_cons]
    obtain ⟨b, hb, hbP⟩ := hkeys r (List.mem_cons_self _ _)
    rw [pyReplace_id P hb hbP hs]
    exact ih (fun rep hm => hkeys rep (List.mem_cons_of_mem _ hm)) s hs

/-- `splitByGo` accumulates a separator-free chunk. -/
theorem splitByGo_chunk (p : Char → Bool) :
    ∀ (t : List Char), (∀ ch ∈ t, p ch = false) →
      ∀ (r acc : List Char),
      splitByGo p (t ++ r) acc = splitByGo p r (t.reverse ++ acc) := by
  intro t
  induction t with
  | nil => intro _ r acc; simp
  | cons c cs ih =>
    intro ht r acc
    have hnc : ¬(p c = true) := by
      rw [ht c (List.mem_cons_self _ _)]
      exact Bool.false_ne_true
    rw [List.cons_append]
    simp only [splitByGo]
    rw [if_neg hnc, ih (fun ch hc => ht ch (List.mem_cons_of_mem _ hc)) r (c :: acc)]
    simp [List.append_assoc]

/-- Splitting the space-join of nonempty space-free tokens recovers the
tokens. -/
theorem splitBy_joinSpace (p : Char → Bool) (hsp : p ' ' = true) :
    ∀ (tokens : List Str),
      (∀ t ∈ tokens, t ≠ [] ∧ ∀ ch ∈ t, p ch = false) →
      splitBy p (joinSpace tokens) = tokens := by
  intro tokens
  induction tokens with
  | nil => intro _; rfl
  | cons t ts ih =>
    intro htok
    obtain ⟨hne, hchars⟩ := htok t (List.mem_cons_self _ _)
    cases ts with
    | nil =>
      show splitByGo p (joinSpace [t]) [] = [t]
      have hch := splitByGo_chunk p t hchars [] []
      rw [List.append_nil] at hch
      rw [show joinSpace [t] = t from rfl, hch]
      simp only [splitByGo, List.append_nil]
      rw [if_neg (fun hx => hne (by simpa using hx)), List.reverse_reverse]
    | cons u us =>
      show splitByGo p (t ++ ' ' :: joinSpace (u :: us)) [] = t :: u :: us
      rw [splitByGo_chunk p t hchars (' ' :: joinSpace (u :: us)) []]
      simp only [splitByGo, List.append_nil]
      rw [if_pos hsp, if_neg (fun hx => hne (by simpa using hx)),
        List.reverse_reverse]
      congr 1
      exact ih (fun x hx => htok x (List.mem_cons_of_mem _ hx))

/-- Characters of the pieces of `splitByGo` come from the input or the
accumulator. -/
theorem splitByGo_sub (p : Char → Bool) :
    ∀ (s acc : List Char) (part : Str), part ∈ splitByGo p s acc →
      ∀ ch ∈ part, ch ∈ s ∨ ch ∈ acc := by
  intro s
  induction s with
  | nil =>
    intro acc part hp ch hc
    simp only [splitByGo] at hp
    by_cases ha : acc = []
    · rw [if_pos ha] at hp
      exact absurd hp (by simp)
    · rw [if_neg ha] at hp
      have hpe : part = acc.reverse := List.mem_singleton.mp hp
      exact Or.inr (List.mem_reverse.mp (hpe ▸ hc))
  | cons c cs ih =>
    intro acc part hp ch hc
    simp only [splitByGo] at hp
    by_cases hpc : p c = true
    · rw [if_pos hpc] at hp
      by_cases ha : acc = []
      · rw [if_pos ha] at hp
        rcases ih [] part hp ch hc with h | h
        · exact Or.inl (List.mem_cons_of_mem _ h)
        · exact absurd h (by simp)
      · rw [if_neg ha] at hp
        rcases List.mem_cons.mp hp with h1 | h1
        · exact Or.inr (List.mem_reverse.mp (h1 ▸ hc))
        · rcases ih [] part h1 ch hc with h | h
          · exact Or.inl (List.mem_cons_of_mem _ h)
          · exact absurd h (by simp)
    · rw [if_neg hpc] at hp
      rcases ih (c :: acc) part hp ch hc with h | h
      · exact Or.inl (List.mem_cons_of_mem _ h)
      · rcases List.mem_cons.mp h with h1 | h1
        · exact Or.inl (h1 ▸ List.mem_cons_self _ _)
        · exact Or.inr h1

/-- Characters of the pieces of `splitBy` come from the input. -/
theorem splitBy_sub {p : Char → Bool} {s : Str} {part : Str}
    (hp : part ∈ splitBy p s) {ch : Char} (hc : ch ∈ part) : ch ∈ s := by
  rcases splitByGo_sub p s [] part hp ch hc with h | h
  · exact h
  · exact absurd h (by simp)

/-- A lookup with no matching key returns `none`. -/
theorem lookupAssoc_eq_none {α β : Type} [DecidableEq α] :
    ∀ (l : List (α × β)) (key : α), (∀ kv ∈ l, kv.1 ≠ key) →
      lookupAssoc l key = none := by
  intro l
  induction l with
  | nil => intro key _; rfl
  | cons p rest ih =>
    intro key hk
    obtain ⟨k0, v0⟩ := p
    simp only [lookupAssoc]
    rw [if_neg (hk (k0, v0) (List.mem_cons_self _ _))]
    exact ih key (fun kv hm => hk kv (List.mem_cons_of_mem _ hm))

/-- A successful lookup returns a stored value. -/
theorem lookupAssoc_mem {α β : Type} [DecidableEq α] :
    ∀ {l : List (α × β)} {key : α} {v : β}, lookupAssoc l key = some v →
      ∃ k, (k, v) ∈ l := by
  intro l
  induction l with
  | nil => intro key v h; exact absurd h (by simp [lookupAssoc])
  | cons p rest ih =>
    intro key v h
    obtain ⟨k0, v0⟩ := p
    simp only [lookupAssoc] at h
    by_cases hk : k0 = key
    · rw [if_pos hk] at h
      injection h with h1
      exact ⟨k0, h1 ▸ List.mem_cons_self _ _⟩
    · rw [if_neg hk] at h
      obtain ⟨k, hm⟩ := ih h
      exact ⟨k, List.mem_cons_of_mem _ hm⟩

/-- The token cleanup pass is the identity on nonempty all-word-char
tokens when every alias key contains a non-word character. -/
theorem cleanupTokens_id (data : StaticData)
    (haliases : ∀ al ∈ data.aliases, ∃ b ∈ al.1, isWordChar b = false) :
    ∀ (tokens : List Str),
      (∀ t ∈ tokens, t ≠ [] ∧ ∀ ch ∈ t, isWordChar ch = true) →
      cleanupTokens data tokens = tokens := by
  intro tokens
  induction tokens with
  | nil => intro _; rfl
  | cons t ts ih =>
    intro htok
    obtain ⟨hne, hword⟩ := htok t (List.mem_cons_self _ _)
    have hlook : lookupAssoc data.aliases t = none := by
      apply lookupAssoc_eq_none
      intro kv hkv hkey
      obtain ⟨b, hb, hbw⟩ := haliases kv hkv
      rw [hkey] at hb
      rw [hword b hb] at hbw
      exact absurd hbw (by decide)
    have hcan : canonicalize_token data t = t := by
      rw [canonicalize_token, hlook]
      rfl
    have hfil : t.filter isWordChar = t := List.filter_eq_self.mpr hword
    rw [cleanupTokens, List.flatMap_cons]
    dsimp only
    rw [hcan, hfil, if_neg (fun hx => hx rfl), if_pos hne]
    have htail : ts.flatMap (fun t =>
        let canonical := canonicalize_token data t
        if canonical ≠ t then [canonical]
        else
          let cleaned := t.filter isWordChar
          if cleaned ≠ [] then [cleaned] else []) = ts :=
      ih (fun x hx => htok x (List.mem_cons_of_mem _ hx))
    rw [htail]
    rfl

/-- Every token produced by the cleanup pass is nonempty and made of
casefold-invariant word characters (given alias values of that shape
and casefold-invariant input pieces). -/
theorem cleanupTokens_good (data : StaticData)
    (haliases : ∀ al ∈ data.aliases, al.2 ≠ [] ∧ ∀ ch ∈ al.2,
      isWordChar ch = true ∧ foldChar ch = ch)
    (sp : List Str) (hsp : ∀ part ∈ sp, ∀ ch ∈ part, foldChar ch = ch) :
    ∀ t ∈ cleanupTokens data sp,
      t ≠ [] ∧ ∀ ch ∈ t, isWordChar ch = true ∧ foldChar ch = ch := by
  intro t ht
  rw [cleanupTokens] at ht
  rcases List.mem_flatMap.mp ht with ⟨t0, ht0, hmem⟩
  dsimp only at hmem
  by_cases hcan : canonicalize_token data t0 ≠ t0
  · rw [if_pos hcan] at hmem
    have hteq : t = canonicalize_token data t0 := List.mem_singleton.mp hmem
    obtain ⟨v, hlv, hcv⟩ : ∃ v, lookupAssoc data.aliases t0 = some v ∧
        canonicalize_token data t0 = v := by
      cases hl : lookupAssoc data.aliases t0 with
      | none =>
        exact absurd (by rw [canonicalize_token, hl]; rfl) hcan
      | some v =>
        refine ⟨v, rfl, ?_⟩
        rw [canonicalize_token, hl]
        rfl
    obtain ⟨k, hkv⟩ := lookupAssoc_mem hlv
    have h4 := haliases (k, v) hkv
    rw [hteq, hcv]
    exact h4
  · rw [if_neg hcan] at hmem
    by_cases hcl : t0.filter isWordChar ≠ []
    · rw [if_pos hcl] at hmem
      have hteq : t = t0.filter isWordChar := List.mem_singleton.mp hmem
      rw [hteq]
      refine ⟨hcl, fun ch hc => ⟨List.of_mem_filter hc,
        hsp t0 ht0 ch (List.mem_of_mem_filter hc)⟩⟩
    · rw [if_neg hcl] at hmem
      exact absurd hmem (by simp)

/-- `dropWhile` drops exactly the `takeWhile` run. -/
theorem dropWhile_eq_drop_run {α : Type} (d : α → Bool) :
    ∀ (l : List α), l.dropWhile d = l.drop (l.takeWhile d).length := by
  intro l
  induction l with
  | nil => rfl
  | cons c cs ih =>
    by_cases h : d c = true
    · rw [List.dropWhile_cons, if_pos h, List.takeWhile_cons, if_pos h,
        List.length_cons, List.drop_succ_cons]
      exact ih
    · rw [List.dropWhile_cons, if_neg h, List.takeWhile_cons, if_neg h]
      rfl

/-- `takeWhile` commutes with `take`. -/
theorem takeWhile_take_comm {α : Type} (d : α → Bool) :
    ∀ (l : List α) (n : Nat),
      (l.take n).takeWhile d = (l.takeWhile d).take n := by
  intro l
  induction l with
  | nil => intro n; simp
  | cons c cs ih =>
    intro n
    cases n with
    | zero => simp
    | succ m =>
      rw [List.take_succ_cons, List.takeWhile_cons, List.takeWhile_cons]
      by_cases h : d c = true
      · rw [if_pos h, if_pos h, List.take_succ_cons, ih]
      · rw [if_neg h, if_neg h]
        rfl

/-- `rdropWhile` as a `take` of the trailing-run complement. -/
theorem rdropWhile_eq_take {α : Type} (d : α → Bool) (l : List α) :
    l.rdropWhile d = l.take (l.length - (l.reverse.takeWhile d).length) := by
  rw [List.rdropWhile, dropWhile_eq_drop_run, ← List.rdrop_eq_reverse_drop_reverse]
  simp [List.rdrop]

/-- A `dropWhile` fixed point has an empty leading run. -/
theorem takeWhile_nil_of_dropWhile_self {α : Type} {d : α → Bool}
    {l : List α} (h : l.dropWhile d = l) : l.takeWhile d = [] := by
  cases l with
  | nil => rfl
  | cons c cs =>
    by_cases hd : d c = true
    · rw [List.dropWhile_cons, if_pos hd] at h
      have hlen := congrArg List.length h
      have hle : (cs.dropWhile d).length ≤ cs.length :=
        (List.dropWhile_suffix d).length_le
      rw [List.length_cons] at hlen
      omega
    · rw [List.takeWhile_cons, if_neg hd]

/-- The post-strip core in closed form: remove the maximal trailing
designator run, then (when prefix stripping is on) the leading run. -/
theorem strippedCore_eq_alt (data : StaticData) (p : Bool) (z : List Str) :
    strippedCore data p z =
      if p then
        (z.rdropWhile (is_designator data)).dropWhile (is_designator data)
      else z.rdropWhile (is_designator data) := by
  simp only [strippedCore, strippedBounds]
  cases p with
  | false =>
    simp only [Bool.false_eq_true, if_false]
    rw [rdropWhile_eq_take, List.drop_zero, Nat.sub_zero]
  | true =>
    simp only [if_true]
    rw [rdropWhile_eq_take, dropWhile_eq_drop_run, takeWhile_take_comm,
      List.length_take]
    by_cases hps : (z.takeWhile (is_designator data)).length
        ≤ z.length - (z.reverse.takeWhile (is_designator data)).length
    · rw [Nat.min_eq_right hps, List.take_drop]
      rw [Nat.add_sub_cancel' hps]
    · rw [Nat.min_eq_left (le_of_not_le hps),
        Nat.sub_eq_zero_of_le (le_of_not_le hps), List.take_zero,
        List.drop_eq_nil_of_le
          (by rw [List.length_take]; exact Nat.min_le_left _ _)]

/-- The last element of a nonempty suffix is the last element of the
whole list. -/
theorem getLast_of_suffix {α : Type} {l₁ l₂ : List α} (hs : l₁ <:+ l₂)
    (h1 : l₁ ≠ []) (h2 : l₂ ≠ []) : l₂.getLast h2 = l₁.getLast h1 := by
  obtain ⟨t, rfl⟩ := hs
  exact List.getLast_append_of_ne_nil h1

/-- Run-freeness: no trailing designator run, and no leading run when
prefix stripping is on. -/
def runFree (data : StaticData) (p : Bool) (z : List Str) : Prop :=
  z.rdropWhile (is_designator data) = z
  ∧ (p = true → z.dropWhile (is_designator data) = z)

/-- The stripped core is run-free. -/
theorem runFree_strippedCore (data : StaticData) (p : Bool) (z : List Str) :
    runFree data p (strippedCore data p z) := by
  rw [strippedCore_eq_alt]
  cases p with
  | false =>
    simp only [Bool.false_eq_true, if_false]
    exact ⟨List.rdropWhile_idempotent _ _, fun h => absurd h (by simp)⟩
  | true =>
    simp only [if_true]
    refine ⟨List.rdropWhile_eq_self_iff.mpr (fun hy => ?_),
      fun _ => List.dropWhile_idempotent _ _⟩
    have hsuf := List.dropWhile_suffix (l := z.rdropWhile (is_designator data))
      (is_designator data)
    have hw : z.rdropWhile (is_designator data) ≠ [] := by
      intro hnil
      rw [hnil, List.dropWhile_nil] at hy
      exact hy rfl
    have hlast := List.rdropWhile_last_not (is_designator data) z hw
    rw [getLast_of_suffix hsuf hy hw] at hlast
    exact hlast

/-- Evaluating the bounds on a run-free list: the whole list is kept
and nothing is removed. -/
theorem runFree_core_eval (data : StaticData) (p : Bool) (z : List Str)
    (h : runFree data p z) :
    strippedCore data p z = z ∧ strippedRemoved data p z = [] := by
  obtain ⟨hT, hL⟩ := h
  have hrev : z.reverse.takeWhile (is_designator data) = [] := by
    have hdw : z.reverse.dropWhile (is_designator data) = z.reverse := by
      have := congrArg List.reverse hT
      rw [List.rdropWhile, List.reverse_reverse] at this
      exact this
    exact takeWhile_nil_of_dropWhile_self hdw
  have hpe : (if p then (z.takeWhile (is_designator data)).length else 0) = 0 := by
    cases p with
    | false => rfl
    | true =>
      rw [if_pos rfl, takeWhile_nil_of_dropWhile_self (hL rfl)]
      rfl
  constructor
  · simp only [strippedCore, strippedBounds, hrev, hpe, List.length_nil,
      Nat.sub_zero, List.drop_zero, List.take_length]
  · simp only [strippedRemoved, strippedBounds, hrev, hpe, List.length_nil,
      Nat.sub_zero, List.take_zero, Nat.zero_max, List.drop_length,
      List.nil_append]

/-- Stripping a run-free list is the identity, at any minimum. -/
theorem runFree_strip (data : StaticData) (p : Bool) (z : List Str)
    (h : runFree data p z) (m : Nat) :
    strip_designators data p m z = (z, []) := by
  obtain ⟨hc, hr⟩ := runFree_core_eval data p z h
  rw [strip_designators, hc, hr]
  by_cases hm : z.length < m
  · rw [if_pos hm]
  · rw [if_neg hm]

/-- `strip_designators` either reverts (when the candidate core is
short) or returns the stripped core. -/
theorem strip_fst_cases (data : StaticData) (p : Bool) (m : Nat)
    (z : List Str) :
    (strip_designators data p m z = (z, [])
        ∧ (strippedCore data p z).length < m)
    ∨ (strip_designators data p m z
          = (strippedCore data p z, strippedRemoved data p z)
        ∧ m ≤ (strippedCore data p z).length) := by
  rw [strip_designators]
  by_cases hm : (strippedCore data p z).length < m
  · rw [if_pos hm]
    exact Or.inl ⟨rfl, hm⟩
  · rw [if_neg hm]
    exact Or.inr ⟨rfl, le_of_not_lt hm⟩

/-- Re-stripping the output of a strip (at a lower or equal minimum) is
the identity. -/
theorem strip_idem (data : StaticData) (p : Bool) (m1 m2 : Nat)
    (hm : m1 ≤ m2) (z : List Str) :
    strip_designators data p m2 ((strip_designators data p m1 z).1)
      = ((strip_designators data p m1 z).1, []) := by
  rcases strip_fst_cases data p m1 z with ⟨heq, hlt⟩ | ⟨heq, _⟩
  · rw [heq]
    rw [strip_designators, if_pos (lt_of_lt_of_le hlt hm)]
  · rw [heq]
    exact runFree_strip data p _ (runFree_strippedCore data p z) m2

/-- Members of the stripped core come from the input. -/
theorem strippedCore_subset (data : StaticData) (p : Bool) (z : List Str) :
    ∀ t ∈ strippedCore data p z, t ∈ z := by
  intro t ht
  simp only [strippedCore, strippedBounds] at ht
  exact List.drop_subset _ _ (List.take_subset _ _ ht)

/-- Freedom from category words. -/
def catFree (data : StaticData) (cats : List String) (z : List Str) : Prop :=
  ∀ t ∈ z, ((cats.map (load_category_words data)).flatten).contains
    (t.map foldChar) = false

/-- The category strip either keeps the tokens or returns a nonempty
category-free filter. -/
theorem catStrip_cases (data : StaticData) (cats : List String)
    (z : List Str) :
    (strip_word_categories data z cats).1 = z
    ∨ (catFree data cats (strip_word_categories data z cats).1
        ∧ (strip_word_categories data z cats).1 ≠ []) := by
  simp only [strip_word_categories]
  by_cases hc : cats = []
  · rw [if_pos hc]
    exact Or.inl rfl
  · rw [if_neg hc]
    by_cases hf : (z.filter (fun t =>
        !((cats.map (load_category_words data)).flatten).contains
          (t.map foldChar))).length < 1
    · rw [if_pos hf]
      exact Or.inl rfl
    · rw [if_neg hf]
      refine Or.inr ⟨fun t ht => ?_, fun hnil => ?_⟩
      · have hmem := List.of_mem_filter ht
        simpa using hmem
      · dsimp only at hnil
        rw [hnil] at hf
        exact hf (by simp)

/-- The category strip is the identity on category-free tokens. -/
theorem catFree_id (data : StaticData) (cats : List String) (z : List Str)
    (h : catFree data cats z) :
    strip_word_categories data z cats = (z, []) := by
  simp only [strip_word_categories]
  by_cases hc : cats = []
  · rw [if_pos hc]
  · rw [if_neg hc]
    have hfil : z.filter (fun t =>
        !((cats.map (load_category_words data)).flatten).contains
          (t.map foldChar)) = z :=
      List.filter_eq_self.mpr (fun t ht => by rw [h t ht]; rfl)
    have hrem : z.filter (fun t =>
        ((cats.map (load_category_words data)).flatten).contains
          (t.map foldChar)) = [] :=
      List.filter_eq_nil_iff.mpr (fun t ht => by rw [h t ht]; simp)
    rw [hfil, hrem]
    split_ifs <;> rfl

/-- The first component of one category-loop pass. -/
theorem categoryPass_fst (data : StaticData) (ncfg : NormalizationConfig)
    (z : List Str) :
    (categoryPass data ncfg z).1 =
      (strip_designators data ncfg.strip_prefix_designators 1
        ((strip_word_categories data z ncfg.strip_categories).1)).1 := rfl

/-- A pass fixed point. -/
def catStable (data : StaticData) (ncfg : NormalizationConfig)
    (z : List Str) : Prop :=
  (categoryPass data ncfg z).1 = z

/-- A category-free list on which the designator strip is the identity
is a pass fixed point. -/
theorem catStable_of (data : StaticData) (ncfg : NormalizationConfig)
    {z : List Str} (hcf : catFree data ncfg.strip_categories z)
    (hd : (strip_designators data ncfg.strip_prefix_designators 1 z).1 = z) :
    catStable data ncfg z := by
  rw [catStable, categoryPass_fst, catFree_id data _ z hcf]
  exact hd

/-- Applying one more pass to any list satisfying the structural
invariant of a pass output yields a pass fixed point. -/
theorem catStable_next (data : StaticData) (ncfg : NormalizationConfig)
    (y : List Str)
    (hy : runFree data ncfg.strip_prefix_designators y
        ∨ strippedCore data ncfg.strip_prefix_designators y = []) :
    catStable data ncfg ((categoryPass data ncfg y).1) := by
  rcases catStrip_cases data ncfg.strip_categories y with hf | ⟨hcf, hne⟩
  · have hdy : strip_designators data ncfg.strip_prefix_designators 1 y
        = (y, []) := by
      rcases hy with h | h
      · exact runFree_strip _ _ _ h 1
      · rw [strip_designators, h]
        rw [if_pos (by decide)]
    have hpy : (categoryPass data ncfg y).1 = y := by
      rw [categoryPass_fst, hf, hdy]
    rw [hpy]
    exact hpy
  · rcases strip_fst_cases data ncfg.strip_prefix_designators 1
        ((strip_word_categories data y ncfg.strip_categories).1) with
      ⟨hd, hlt⟩ | ⟨hd, _⟩
    · have hpy : (categoryPass data ncfg y).1
          = (strip_word_categories data y ncfg.strip_categories).1 := by
        rw [categoryPass_fst, hd]
      rw [hpy]
      refine catStable_of data ncfg hcf ?_
      rw [strip_designators,
        if_pos (lt_of_lt_of_le hlt (le_refl 1))]
    · have hpy : (categoryPass data ncfg y).1
          = strippedCore data ncfg.strip_prefix_designators
              ((strip_word_categories data y ncfg.strip_categories).1) := by
        rw [categoryPass_fst, hd]
      rw [hpy]
      refine catStable_of data ncfg
        (fun t ht => hcf t (strippedCore_subset _ _ _ t ht)) ?_
      rw [runFree_strip data _ _ (runFree_strippedCore data _ _) 1]

/-- Two passes always reach a pass fixed point. -/
theorem categoryPass_twice_stable (data : StaticData)
    (ncfg : NormalizationConfig) (c : List Str) :
    catStable data ncfg
      ((categoryPass data ncfg ((categoryPass data ncfg c).1)).1) := by
  apply catStable_next
  rcases strip_fst_cases data ncfg.strip_prefix_designators 1
      ((strip_word_categories data c ncfg.strip_categories).1) with
    ⟨hd, hlt⟩ | ⟨hd, _⟩
  · right
    have hpy : (categoryPass data ncfg c).1
        = (strip_word_categories data c ncfg.strip_categories).1 := by
      rw [categoryPass_fst, hd]
    rw [hpy]
    exact List.eq_nil_of_length_eq_zero (Nat.lt_one_iff.mp hlt)
  · left
    have hpy : (categoryPass data ncfg c).1
        = strippedCore data ncfg.strip_prefix_designators
            ((strip_word_categories data c ncfg.strip_categories).1) := by
      rw [categoryPass_fst, hd]
    rw [hpy]
    exact runFree_strippedCore _ _ _

/-- The loop leaves a pass fixed point unchanged. -/
theorem categoryLoop_of_stable (data : StaticData)
    (ncfg : NormalizationConfig) {z : List Str}
    (h : catStable data ncfg z) :
    ∀ fuel, 1 ≤ fuel → (categoryLoop data ncfg fuel z).1 = z := by
  intro fuel h1
  cases fuel with
  | zero => omega
  | succ n =>
    have h' : (categoryPass data ncfg z).1 = z := h
    simp only [categoryLoop]
    rw [if_pos h']
    exact h'

/-- Starting from a pass output, the loop lands on a pass fixed point
whenever at least two rounds of fuel remain. -/
theorem categoryLoop_out_stable_aux (data : StaticData)
    (ncfg : NormalizationConfig) (c : List Str) (fuel : Nat)
    (h2 : 2 ≤ fuel) :
    catStable data ncfg
      ((categoryLoop data ncfg fuel ((categoryPass data ncfg c).1)).1) := by
  cases fuel with
  | zero => omega
  | succ n =>
    simp only [categoryLoop]
    by_cases hfix : (categoryPass data ncfg ((categoryPass data ncfg c).1)).1
        = (categoryPass data ncfg c).1
    · rw [if_pos hfix, hfix]
      exact hfix
    · rw [if_neg hfix]
      have hst := categoryPass_twice_stable data ncfg c
      show catStable data ncfg ((categoryLoop data ncfg n
        ((categoryPass data ncfg ((categoryPass data ncfg c).1)).1)).1)
      rw [categoryLoop_of_stable data ncfg hst n (by omega)]
      exact hst

/-- With the source's fuel of ten rounds, the loop output is always a
pass fixed point. -/
theorem categoryLoop_out_stable (data : StaticData)
    (ncfg : NormalizationConfig) (fuel : Nat) (c : List Str)
    (h3 : 3 ≤ fuel) :
    catStable data ncfg ((categoryLoop data ncfg fuel c).1) := by
  cases fuel with
  | zero => omega
  | succ n =>
    simp only [categoryLoop]
    by_cases hfix : (categoryPass data ncfg c).1 = c
    · rw [if_pos hfix, hfix]
      exact hfix
    · rw [if_neg hfix]
      show catStable data ncfg
        ((categoryLoop data ncfg n ((categoryPass data ncfg c).1)).1)
      exact categoryLoop_out_stable_aux data ncfg c n (by omega)

/-- A pass fixed point passes the minimum-two designator strip
unchanged. -/
theorem catStable_strip2 (data : StaticData) (ncfg : NormalizationConfig)
    {z : List Str} (h : catStable data ncfg z) :
    strip_designators data ncfg.strip_prefix_designators 2 z = (z, []) := by
  rcases strip_fst_cases data ncfg.strip_prefix_designators 1
      ((strip_word_categories data z ncfg.strip_categories).1) with
    ⟨hd, hlt⟩ | ⟨hd, _⟩
  · have hfz := h
    rw [catStable, categoryPass_fst, hd] at hfz
    dsimp only at hfz
    have hcz : strippedCore data ncfg.strip_prefix_designators z = [] := by
      rw [← hfz]
      exact List.eq_nil_of_length_eq_zero (Nat.lt_one_iff.mp hlt)
    rw [strip_designators, hcz]
    rw [if_pos (by decide)]
  · have hfz := h
    rw [catStable, categoryPass_fst, hd] at hfz
    dsimp only at hfz
    have hrf : runFree data ncfg.strip_prefix_designators z :=
      hfz ▸ runFree_strippedCore data _ _
    exact runFree_strip data _ z hrf 2

/-- The cleanup tokens of a normalization run (steps 1-5). -/
def tokensOf (data : StaticData) (name : Str) : List Str :=
  cleanupTokens data (splitBy isSpaceChar
    (applyReplacements data.replacements (name.map foldChar)))

/-- The core after step 8/9 of `normalize` (designator stripping with
the defensive re-check). -/
def step9Fst (data : StaticData) (cfg : MatchConfig) (tokens : List Str) :
    List Str :=
  if (strip_designators data cfg.normalization.strip_prefix_designators 2
        tokens).1.length < 2
      ∧ (strip_designators data cfg.normalization.strip_prefix_designators 2
          tokens).2 ≠ [] then tokens
  else (strip_designators data cfg.normalization.strip_prefix_designators 2
        tokens).1

/-- Characterization of `core_tokens` through the pipeline stages. -/
theorem normalize_core_tokens (data : StaticData) (cfg : MatchConfig)
    (name : Str) :
    (normalize data cfg name).core_tokens =
      (if cfg.normalization.strip_categories ≠ [] then
        (categoryLoop data cfg.normalization 10
          (step9Fst data cfg (tokensOf data name))).1
       else step9Fst data cfg (tokensOf data name)) := by
  simp only [normalize, tokensOf, step9Fst]
  by_cases hc : cfg.normalization.strip_categories ≠ [] <;>
    by_cases h9 : (strip_designators data
        cfg.normalization.strip_prefix_designators 2
        (cleanupTokens data (splitBy isSpaceChar
          (applyReplacements data.replacements
            (name.map foldChar))))).1.length < 2
      ∧ (strip_designators data cfg.normalization.strip_prefix_designators 2
          (cleanupTokens data (splitBy isSpaceChar
            (applyReplacements data.replacements
              (name.map foldChar))))).2 ≠ []
  · simp only [if_pos hc, if_pos h9]
  · simp only [if_pos hc, if_neg h9]
  · simp only [if_neg hc, if_pos h9]
  · simp only [if_neg hc, if_neg h9]

/-- `core_string` is the space-join of `core_tokens`. -/
theorem normalize_core_string (data : StaticData) (cfg : MatchConfig)
    (name : Str) :
    (normalize data cfg name).core_string
      = joinSpace ((normalize data cfg name).core_tokens) := rfl

/-- The defensive re-check of step 9 never fires: a reverted strip has
an empty removed list, and a non-reverted one keeps at least two
tokens. -/
theorem step9_cond_false (data : StaticData) (p : Bool) (t : List Str) :
    ¬((strip_designators data p 2 t).1.length < 2
      ∧ (strip_designators data p 2 t).2 ≠ []) := by
  rcases strip_fst_cases data p 2 t with ⟨heq, _⟩ | ⟨heq, hge⟩
  · rw [heq]
    rintro ⟨-, h2⟩
    exact h2 rfl
  · rw [heq]
    rintro ⟨h1, -⟩
    dsimp only at h1
    omega

/-- Stripping keeps a subset of the tokens. -/
theorem strip_fst_subset (data : StaticData) (p : Bool) (m : Nat)
    (z : List Str) :
    ∀ t ∈ (strip_designators data p m z).1, t ∈ z := by
  rcases strip_fst_cases data p m z with ⟨heq, _⟩ | ⟨heq, _⟩ <;> rw [heq]
  · exact fun t ht => ht
  · exact fun t ht => strippedCore_subset data p z t ht

/-- Step 9 keeps a subset of the tokens. -/
theorem step9Fst_subset (data : StaticData) (cfg : MatchConfig)
    (z : List Str) : ∀ t ∈ step9Fst data cfg z, t ∈ z := by
  intro t ht
  rw [step9Fst] at ht
  split_ifs at ht
  · exact ht
  · exact strip_fst_subset data _ 2 z t ht

/-- Category stripping keeps a subset of the tokens. -/
theorem catStrip_fst_subset (data : StaticData) (cats : List String)
    (z : List Str) :
    ∀ t ∈ (strip_word_categories data z cats).1, t ∈ z := by
  intro t ht
  simp only [strip_word_categories] at ht
  split_ifs at ht
  · exact ht
  · exact ht
  · exact List.mem_of_mem_filter ht

/-- One loop pass keeps a subset of the tokens. -/
theorem categoryPass_fst_subset (data : StaticData)
    (ncfg : NormalizationConfig) (z : List Str) :
    ∀ t ∈ (categoryPass data ncfg z).1, t ∈ z := by
  intro t ht
  rw [categoryPass_fst] at ht
  exact catStrip_fst_subset data _ z t (strip_fst_subset data _ 1 _ t ht)

/-- The category loop keeps a subset of the tokens. -/
theorem categoryLoop_fst_subset (data : StaticData)
    (ncfg : NormalizationConfig) :
    ∀ (fuel : Nat) (z : List Str),
      ∀ t ∈ (categoryLoop data ncfg fuel z).1, t ∈ z := by
  intro fuel
  induction fuel with
  | zero => intro z t ht; exact ht
  | succ n ih =>
    intro z t ht
    simp only [categoryLoop] at ht
    by_cases hfix : (categoryPass data ncfg z).1 = z
    · rw [if_pos hfix] at ht
      exact categoryPass_fst_subset data ncfg z t ht
    · rw [if_neg hfix] at ht
      exact categoryPass_fst_subset data ncfg z t (ih _ t ht)

/-- Every cleanup token is nonempty and made of casefold-invariant word
characters. -/
theorem tokensOf_good (data : StaticData)
    (H2 : ∀ rep ∈ data.replacements, ∀ ch ∈ rep.2, foldChar ch = ch)
    (H4 : ∀ al ∈ data.aliases, al.2 ≠ [] ∧ ∀ ch ∈ al.2,
      isWordChar ch = true ∧ foldChar ch = ch)
    (name : Str) :
    ∀ t ∈ tokensOf data name,
      t ≠ [] ∧ ∀ ch ∈ t, isWordChar ch = true ∧ foldChar ch = ch := by
  apply cleanupTokens_good data H4
  intro part hpart ch hch
  have hs1 : ch ∈ applyReplacements data.replacements (name.map foldChar) :=
    splitBy_sub hpart hch
  refine applyReplacements_chars (fun c => foldChar c = c) data.replacements
    H2 (name.map foldChar) ?_ ch hs1
  intro c hc
  rcases List.mem_map.mp hc with ⟨x, _, rfl⟩
  exact foldChar_idem x

/-- Pointwise-identity map. -/
theorem map_self {α : Type} (f : α → α) :
    ∀ (l : List α), (∀ a ∈ l, f a = a) → l.map f = l := by
  intro l
  induction l with
  | nil => intro _; rfl
  | cons a as ih =>
    intro h
    rw [List.map_cons, h a (List.mem_cons_self _ _),
      ih (fun x hx => h x (List.mem_cons_of_mem _ hx))]

/-- Characters of a space-join come from the tokens or are spaces. -/
theorem joinSpace_chars :
    ∀ (toks : List Str) (ch : Char), ch ∈ joinSpace toks →
      (∃ t ∈ toks, ch ∈ t) ∨ ch = ' ' := by
  intro toks
  induction toks with
  | nil => intro ch h; exact absurd h (by simp [joinSpace])
  | cons t ts ih =>
    intro ch h
    cases ts with
    | nil => exact Or.inl ⟨t, List.mem_cons_self _ _, h⟩
    | cons u us =>
      have h' : ch ∈ t ++ ' ' :: joinSpace (u :: us) := h
      rcases List.mem_append.mp h' with h1 | h1
      · exact Or.inl ⟨t, List.mem_cons_self _ _, h1⟩
      · rcases List.mem_cons.mp h1 with h2 | h2
        · exact Or.inr h2
        · rcases ih ch h2 with ⟨x, hx, hcx⟩ | h3
          · exact Or.inl ⟨x, List.mem_cons_of_mem _ hx, hcx⟩
          · exact Or.inr h3

/-- C9: normalization is idempotent on its own output — re-normalizing
`core_string` reproduces `core_tokens` — for every config and every
static word-list data of the shipped shape: replacement keys contain a
non-word non-space symbol, replacement values are casefold-invariant,
alias keys contain a non-word character, and alias values are nonempty
casefold-invariant word strings. -/
theorem c9_normalize_idempotent (data : StaticData) (cfg : MatchConfig)
    (H1 : ∀ rep ∈ data.replacements, ∃ b ∈ rep.1,
      ¬(isWordChar b = true ∨ b = ' '))
    (H2 : ∀ rep ∈ data.replacements, ∀ ch ∈ rep.2, foldChar ch = ch)
    (H3 : ∀ al ∈ data.aliases, ∃ b ∈ al.1, isWordChar b = false)
    (H4 : ∀ al ∈ data.aliases, al.2 ≠ [] ∧ ∀ ch ∈ al.2,
      isWordChar ch = true ∧ foldChar ch = ch)
    (s : Str) :
    (normalize data cfg ((normalize data cfg s).core_string)).core_tokens
      = (normalize data cfg s).core_tokens := by
  set core := (normalize data cfg s).core_tokens with hcore
  have hsub : ∀ t ∈ core, t ∈ tokensOf data s := by
    intro t ht
    rw [hcore, normalize_core_tokens] at ht
    by_cases hc : cfg.normalization.strip_categories ≠ []
    · rw [if_pos hc] at ht
      exact step9Fst_subset data cfg _ t
        (categoryLoop_fst_subset data cfg.normalization 10 _ t ht)
    · rw [if_neg hc] at ht
      exact step9Fst_subset data cfg _ t ht
  have hgood : ∀ t ∈ core,
      t ≠ [] ∧ ∀ ch ∈ t, isWordChar ch = true ∧ foldChar ch = ch :=
    fun t ht => tokensOf_good data H2 H4 s t (hsub t ht)
  have hjs : (normalize data cfg s).core_string = joinSpace core := by
    rw [normalize_core_string, hcore]
  have hfold : ∀ ch ∈ joinSpace core, foldChar ch = ch := by
    intro ch hch
    rcases joinSpace_chars core ch hch with ⟨t, ht, hct⟩ | hsp
    · exact ((hgood t ht).2 ch hct).2
    · rw [hsp]
      decide
  have hchars : ∀ ch ∈ joinSpace core, isWordChar ch = true ∨ ch = ' ' := by
    intro ch hch
    rcases joinSpace_chars core ch hch with ⟨t, ht, hct⟩ | hsp
    · exact Or.inl ((hgood t ht).2 ch hct).1
    · exact Or.inr hsp
  have htok2 : tokensOf data (joinSpace core) = core := by
    rw [tokensOf, map_self foldChar (joinSpace core) hfold,
      applyReplacements_id (fun ch => isWordChar ch = true ∨ ch = ' ')
        data.replacements H1 (joinSpace core) hchars,
      splitBy_joinSpace isSpaceChar (by decide) core
        (fun t ht => ⟨(hgood t ht).1,
          fun ch hc => isWordChar_not_space ((hgood t ht).2 ch hc).1⟩)]
    exact cleanupTokens_id data H3 core
      (fun t ht => ⟨(hgood t ht).1, fun ch hc => ((hgood t ht).2 ch hc).1⟩)
  rw [hjs, normalize_core_tokens data cfg (joinSpace core), htok2]
  by_cases hc : cfg.normalization.strip_categories ≠ []
  · rw [if_pos hc]
    have hstab : catStable data cfg.normalization core := by
      rw [hcore, normalize_core_tokens data cfg s, if_pos hc]
      exact categoryLoop_out_stable data cfg.normalization 10 _ (by omega)
    have hstrip := catStable_strip2 data cfg.normalization hstab
    have hstep : step9Fst data cfg core = core := by
      rw [step9Fst, hstrip]
      rw [if_neg (fun hand => hand.2 rfl)]
    rw [hstep]
    exact categoryLoop_of_stable data cfg.normalization hstab 10 (by omega)
  · rw [if_neg hc]
    have hrun1 : core = (strip_designators data
        cfg.normalization.strip_prefix_designators 2 (tokensOf data s)).1 := by
      rw [hcore, normalize_core_tokens data cfg s, if_neg hc, step9Fst,
        if_neg (step9_cond_false data _ (tokensOf data s))]
    have hstrip : strip_designators data
        cfg.normalization.strip_prefix_designators 2 core = (core, []) := by
      rw [hrun1]
      exact strip_idem data _ 2 2 (le_refl 2) (tokensOf data s)
    rw [step9Fst, hstrip, if_neg (fun hand => hand.2 rfl)]

/-- Config used by the C9 witness: prefix stripping on and the
`location` category configured. -/
def c9Cfg : MatchConfig :=
  { normalization := { strip_prefix_designators := true
                       strip_categories := ["location"] } }

/-- Witness for C9: a concrete round-trip through replacements, alias
punctuation, designator stripping and the category loop. -/
theorem c9_normalize_idempotent_witness :
    (normalize exampleData c9Cfg ((normalize exampleData c9Cfg
        ("Johnson & Johnson GmbH Germany".toList)).core_string)).core_tokens
      = (normalize exampleData c9Cfg
          ("Johnson & Johnson GmbH Germany".toList)).core_tokens :=
  c9_normalize_idempotent exampleData c9Cfg (by decide) (by decide)
    (by decide) (by decide) ("Johnson & Johnson GmbH Germany".toList)

end BizMatch
